import Mathlib

/-!
Shallow embedding of the room coordinator implemented in
`src/server_actor.rs` of the carcassonne-server repository, together with
theorems checking the natural-language specification of that coordinator
against the code.

Modelling choices:
* `IdType` is modelled as `Nat` (the id values themselves are opaque).
* `HashMap<IdType, _>` is modelled as a duplicate-key-free association list
  (`List (IdType × _)`) with lookup / insert-or-replace / erase operations.
* `HashSet<IdType>` is modelled as a duplicate-free `List IdType`; insertion
  appends at the end, and iteration order is the list order (the Rust
  `HashSet` iteration order is arbitrary, so the list order is one
  admissible order).
* The thread rng (`self.rng.gen::<IdType>()`) is modelled as a supply of
  pending random draws stored in the state (`rng : List IdType`); the
  collision-retry loop consumes draws until a fresh one appears.  An
  exhausted supply is modelled as `none` (in the real code the loop would
  simply keep drawing).
* A Rust panic (`unwrap` / `expect` / out-of-bounds byte slicing) is
  modelled as the `none` result of the handler; every handler therefore
  returns an `Option`.
* `addr.do_send(...)` is modelled by appending a `Delivery` record (tagged
  with the id of the player whose connection handle receives the message)
  to the list of outbound deliveries produced by the handler.
* Outbound payload contents that cross the module boundary
  (`OutEvent` / `OutGameEvent` variants used by the coordinator) are
  modelled with the fields the coordinator itself fills in; the cosmetics
  blob is modelled as an opaque `Nat`.
-/

abbrev IdType := Nat

structure PlayerObject where
  id : IdType
  username : String
  cosmetics : Nat
  is_host : Bool
deriving DecidableEq, Repr

structure LoginData where
  username : String
  cosmetics : Nat
deriving DecidableEq, Repr

structure UserData where
  addr : Nat
  obj : PlayerObject
  room : Option IdType
  in_game : Bool
deriving DecidableEq, Repr

inductive RoomState where
  | Matchmaking
  | Playing
deriving DecidableEq, Repr

structure RoomData where
  state : RoomState
  players : List IdType
  in_game_count : Nat
deriving DecidableEq, Repr

inductive OutEvent where
  | EventPlayerJoined (player : PlayerObject)
  | EventPlayerLeft (player : IdType) (new_host : Option IdType)
  | EventPlayerAvatarChange (player : IdType) (cosmetics : Nat)
  | EventRoomStart (connection_type : Nat) (broadcast_id : String)
deriving DecidableEq, Repr

inductive OutGameEvent where
  | PlayerLeft (player : IdType) (new_host : Option IdType)
deriving DecidableEq, Repr

/-- One outbound `do_send` call; the first argument is the id of the player
whose connection handle (`addr`) the message is pushed to. -/
inductive Delivery where
  | event (target : IdType) (e : OutEvent)
  | gameEvent (target : IdType) (e : OutGameEvent)
  | relayRaw (target : IdType) (data : String)
deriving DecidableEq, Repr

/-- Lookup in an association list, the model of `HashMap::get`. -/
def alookup {α : Type} : List (IdType × α) → IdType → Option α
  | [], _ => none
  | (k, v) :: rest, key => if key = k then some v else alookup rest key

/-- Insert-or-replace in an association list, the model of `HashMap::insert`
and of mutation through `HashMap::get_mut`. -/
def aset {α : Type} : List (IdType × α) → IdType → α → List (IdType × α)
  | [], key, v => [(key, v)]
  | (k, w) :: rest, key, v =>
    if key = k then (key, v) :: rest else (k, w) :: aset rest key v

/-- Erase a key from an association list, the model of `HashMap::remove`. -/
def aerase {α : Type} : List (IdType × α) → IdType → List (IdType × α)
  | [], _ => []
  | (k, w) :: rest, key => if key = k then rest else (k, w) :: aerase rest key

/-- Set insertion, the model of `HashSet::insert`. -/
def insertSet (x : IdType) (l : List IdType) : List IdType :=
  if x ∈ l then l else l ++ [x]

/-- Set removal, the model of `HashSet::remove`. -/
def removeSet (x : IdType) (l : List IdType) : List IdType :=
  l.filter (fun y => decide (y ≠ x))

/-- The full coordinator state (`struct ServerActor`), extended with the
pending rng draws. -/
structure ServerActor where
  players : List (IdType × UserData)
  rooms : List (IdType × RoomData)
  available_rooms : List IdType
  rng : List IdType
deriving DecidableEq, Repr

def initState (rng : List IdType) : ServerActor :=
  { players := [], rooms := [], available_rooms := [], rng := rng }

/-- Consume rng draws until one that is not `used`; models the
collision-retry loop shared by `allocate_player_id` and `create_room`. -/
def drawFresh (used : IdType → Bool) : List IdType → Option (IdType × List IdType)
  | [] => none
  | x :: xs => if used x then drawFresh used xs else some (x, xs)

/-- Model of `ServerActor::allocate_player_id`. -/
def allocate_player_id (s : ServerActor) (data : UserData) :
    Option (IdType × ServerActor) :=
  match drawFresh (fun id => (alookup s.players id).isSome) s.rng with
  | none => none
  | some (id, rng') =>
    some (id,
      { s with
        players := aset s.players id { data with obj := { data.obj with id := id } },
        rng := rng' })

/-- Model of `ServerActor::create_room`. -/
def create_room (s : ServerActor) (host_id : IdType) (pub : Bool) :
    Option (IdType × ServerActor) :=
  match drawFresh (fun id => (alookup s.rooms id).isSome) s.rng with
  | none => none
  | some (id, rng') =>
    let room : RoomData :=
      { state := RoomState.Matchmaking, players := [host_id], in_game_count := 0 }
    let s1 := { s with rooms := aset s.rooms id room, rng := rng' }
    match alookup s1.players host_id with
    | none => none
    | some host =>
      let s2 :=
        { s1 with
          players := aset s1.players host_id
            { host with obj := { host.obj with is_host := true }, room := some id } }
      some (id, if pub then { s2 with available_rooms := insertSet id s2.available_rooms } else s2)

/-- Model of `ServerActor::remove_room`. -/
def remove_room (s : ServerActor) (room_id : IdType) : ServerActor :=
  { s with
    rooms := aerase s.rooms room_id,
    available_rooms := removeSet room_id s.available_rooms }

/-- Model of `ServerActor::broadcast_event_room` (reads `self.players` for
the `in_game` filter). -/
def broadcast_event_room (ps : List (IdType × UserData)) (room : RoomData)
    (ev : OutEvent) (skip_id : Option IdType) : List Delivery :=
  room.players.filterMap (fun pid =>
    if skip_id = some pid then none
    else
      match alookup ps pid with
      | none => none
      | some player => if player.in_game then none else some (Delivery.event pid ev))

/-- Model of `ServerActor::broadcast_event`. -/
def broadcast_event (s : ServerActor) (room : IdType) (ev : OutEvent)
    (skip_id : Option IdType) : List Delivery :=
  match alookup s.rooms room with
  | some r => broadcast_event_room s.players r ev skip_id
  | none => []

/-- The state mutations of `leave_room_if_any` before host handover: the
leaving player is removed from the member set (decrementing
`in_game_count` when the player was in-game), and the player record has
its `room` and `is_host` flags cleared. -/
def leaveBase (s : ServerActor) (player_id : IdType) (player : UserData)
    (room_id : IdType) (room : RoomData) : ServerActor :=
  { s with
    rooms := (aset s.rooms room_id
      { room with
        players := removeSet player_id room.players,
        in_game_count :=
          if player.in_game then room.in_game_count - 1 else room.in_game_count }),
    players := (aset s.players player_id
      { player with room := none, obj := { player.obj with is_host := false } }) }

/-- Host handover inside `leave_room_if_any`: flag the chosen remaining
member as host. -/
def promoteHost (s : ServerActor) (first_player : IdType) (p : UserData) : ServerActor :=
  { s with players := (aset s.players first_player
      { p with obj := { p.obj with is_host := true } }) }

/-- The per-member departure notifications of `leave_room_if_any`: each
remaining member receives the in-game-flavoured event when flagged
`in_game`, and the lobby event otherwise. -/
def leaveEvents (ps : List (IdType × UserData)) (members : List IdType)
    (player_id : IdType) (new_host : Option IdType) : List Delivery :=
  members.filterMap (fun q =>
    match alookup ps q with
    | none => none
    | some qd =>
      some (if qd.in_game then Delivery.gameEvent q (OutGameEvent.PlayerLeft player_id new_host)
            else Delivery.event q (OutEvent.EventPlayerLeft player_id new_host)))

/-- Model of `ServerActor::leave_room_if_any`. -/
def leave_room_if_any (s : ServerActor) (player_id : IdType) :
    Option (ServerActor × List Delivery) :=
  match alookup s.players player_id with
  | none => some (s, [])
  | some player =>
    match player.room with
    | none => some (s, [])
    | some room_id =>
      match alookup s.rooms room_id with
      | none => none
      | some room =>
        let s2 := leaveBase s player_id player room_id room
        match removeSet player_id room.players with
        | [] => some (remove_room s2 room_id, [])
        | first_player :: rest =>
          if player.obj.is_host then
            match alookup s2.players first_player with
            | none => none
            | some p =>
              some (promoteHost s2 first_player p,
                leaveEvents (promoteHost s2 first_player p).players
                  (first_player :: rest) player_id (some p.obj.id))
          else
            some (s2, leaveEvents s2.players (first_player :: rest) player_id none)

/-- The outbound relay payload built by the `SendRelayMex` handler:
`format!("{{\"sender\":\"{}\",{}", SerId(msg.sender_id), &msg.data[1..])`. -/
def relayPayload (sender_id : IdType) (data : String) : String :=
  "\x7b\"sender\":\"" ++ toString sender_id ++ "\"," ++ data.drop 1

/-- The unconditional member-set insertion of `join_room`. -/
def joinInsert (s1 : ServerActor) (player_id room_id : IdType) (room0 : RoomData) :
    ServerActor :=
  { s1 with rooms := (aset s1.rooms room_id
      { room0 with players := insertSet player_id room0.players }) }

/-- The `room` back-reference update of a successful `join_room`. -/
def joinSetRoom (s2 : ServerActor) (player_id room_id : IdType) (user_data : UserData) :
    ServerActor :=
  { s2 with players := (aset s2.players player_id
      { user_data with room := some room_id }) }

/-- Model of `ServerActor::join_room`. -/
def join_room (s : ServerActor) (player_id room_id : IdType) :
    Option (Bool × ServerActor × List Delivery) :=
  match leave_room_if_any s player_id with
  | none => none
  | some (s1, out1) =>
    match alookup s1.rooms room_id with
    | none => none
    | some room0 =>
      let s2 := joinInsert s1 player_id room_id room0
      match alookup s2.rooms room_id with
      | none => none
      | some room_data =>
        if room_data.state ≠ RoomState.Matchmaking then some (false, s2, out1)
        else
          match alookup s2.players player_id with
          | none => none
          | some user_data =>
            let s3 := joinSetRoom s2 player_id room_id user_data
            some (true, s3,
              out1 ++ broadcast_event_room s3.players room_data
                (OutEvent.EventPlayerJoined user_data.obj) none)

/-- The scanning loop of `ServerActor::find_available_room_for`; the
accumulator keeps the last room id the predicate accepted. -/
def scan_available (rooms : List (IdType × RoomData))
    (find_if : IdType → RoomData → Bool) (max_iter : Int) :
    List IdType → Int → Option IdType → Option (Option IdType)
  | [], _, acc => some acc
  | room_id :: rest, iter, acc =>
    if max_iter > 0 ∧ iter ≥ max_iter then some acc
    else
      match alookup rooms room_id with
      | none => none
      | some room_data =>
        scan_available rooms find_if max_iter rest (iter + 1)
          (if find_if room_id room_data then some room_id else acc)

/-- Model of `ServerActor::find_available_room_for` (scans the pool, then
inserts the player into the member set of the room it settled on). -/
def find_available_room_for (s : ServerActor) (player_id : IdType)
    (find_if : IdType → RoomData → Bool) (max_iter : Int) :
    Option (Option IdType × ServerActor) :=
  match scan_available s.rooms find_if max_iter s.available_rooms 0 none with
  | none => none
  | some none => some (none, s)
  | some (some found_room_id) =>
    match alookup s.rooms found_room_id with
    | none => none
    | some room =>
      some (some found_room_id,
        { s with rooms := (aset s.rooms found_room_id
            { room with players := insertSet player_id room.players }) })

/-- Member profile collection shared by several handlers:
`.players.iter().map(|x| self.players.get(x).expect(..).obj.clone()).collect()`;
faults on the first member missing from the Player Registry. -/
def collectPlayers (s : ServerActor) : List IdType → Option (List PlayerObject)
  | [] => some []
  | x :: rest =>
    match alookup s.players x with
    | none => none
    | some u =>
      match collectPlayers s rest with
      | none => none
      | some objs => some (u.obj :: objs)

inductive FindRoomResult where
  | Success (room_id : IdType) (players : List PlayerObject) (just_created : Bool)
  | GameIsFull
deriving DecidableEq, Repr

inductive JoinRoomResult where
  | Success (players : List PlayerObject)
  | RoomNotFound
  | AlreadyPlaying
deriving DecidableEq, Repr

/-- Model of `Handler<RegisterSession> for ServerActor`. -/
def registerHandler (s : ServerActor) (id : Option IdType) (addr : Nat)
    (obj : LoginData) : Option (IdType × ServerActor × List Delivery) :=
  match id with
  | some id =>
    match alookup s.players id with
    | none => none
    | some player =>
      if player.room.isNone then
        some (id,
          { s with players := (aset s.players id
              { player with obj :=
                  { player.obj with username := obj.username, cosmetics := obj.cosmetics } }) },
          [])
      else some (id, s, [])
  | none =>
    let pobj : PlayerObject :=
      { id := 0, username := obj.username, cosmetics := obj.cosmetics, is_host := false }
    match allocate_player_id s { addr := addr, obj := pobj, room := none, in_game := false } with
    | none => none
    | some (pid, s') => some (pid, s', [])

/-- Model of `Handler<Disconnect> for ServerActor`. -/
def disconnectHandler (s : ServerActor) (id : IdType) :
    Option (ServerActor × List Delivery) :=
  match leave_room_if_any s id with
  | none => none
  | some (s1, out) => some ({ s1 with players := aerase s1.players id }, out)

/-- Model of `Handler<FindRoom> for ServerActor`. -/
def findRoomHandler (s : ServerActor) (my_id : IdType) :
    Option (FindRoomResult × ServerActor × List Delivery) :=
  match find_available_room_for s my_id (fun _ _ => true) (-1) with
  | none => none
  | some (found, s1) =>
    match (match found with
           | some room_id =>
             match join_room s1 my_id room_id with
             | none => none
             | some (_, s2, out) => some (room_id, false, s2, out)
           | none =>
             match create_room s1 my_id true with
             | none => none
             | some (room_id, s2) => some (room_id, true, s2, ([] : List Delivery))) with
    | none => none
    | some (room_id, just_created, s2, out) =>
      match alookup s2.rooms room_id with
      | none => none
      | some room =>
        match collectPlayers s2 room.players with
        | none => none
        | some players =>
          some (FindRoomResult.Success room_id players just_created, s2, out)

/-- Model of `Handler<CreateRoom> for ServerActor`. -/
def createRoomHandler (s : ServerActor) (id : IdType) :
    Option ((IdType × PlayerObject) × ServerActor × List Delivery) :=
  match leave_room_if_any s id with
  | none => none
  | some (s1, out) =>
    match create_room s1 id false with
    | none => none
    | some (room_id, s2) =>
      match alookup s2.players id with
      | none => none
      | some player => some ((room_id, player.obj), s2, out)

/-- Model of `Handler<JoinRoom> for ServerActor`. -/
def joinRoomHandler (s : ServerActor) (id room_id : IdType) :
    Option (JoinRoomResult × ServerActor × List Delivery) :=
  if (alookup s.rooms room_id).isNone then some (JoinRoomResult.RoomNotFound, s, [])
  else
    match join_room s id room_id with
    | none => none
    | some (result, s1, out) =>
      if result = false then some (JoinRoomResult.AlreadyPlaying, s1, out)
      else
        match alookup s1.rooms room_id with
        | none => none
        | some room =>
          match collectPlayers s1 room.players with
          | none => none
          | some users => some (JoinRoomResult.Success users, s1, out)

/-- Model of `Handler<EditCosmetics> for ServerActor`. -/
def editCosmeticsHandler (s : ServerActor) (id : IdType) (cos : Nat) :
    Option (ServerActor × List Delivery) :=
  match alookup s.players id with
  | none => none
  | some player =>
    if player.obj.cosmetics = cos then some (s, [])
    else
      let s1 :=
        { s with players := (aset s.players id
            { player with obj := { player.obj with cosmetics := cos } }) }
      match player.room with
      | none => some (s1, [])
      | some room =>
        some (s1, broadcast_event s1 room
          (OutEvent.EventPlayerAvatarChange player.obj.id cos) (some id))

/-- Sequential forced departures, modelling the straggler-eviction loop of
the `StartRoom` handler. -/
def leaveAll : List IdType → ServerActor → Option (ServerActor × List Delivery)
  | [], s => some (s, [])
  | id :: rest, s =>
    match leave_room_if_any s id with
    | none => none
    | some (s1, out1) =>
      match leaveAll rest s1 with
      | none => none
      | some (s2, out2) => some (s2, out1 ++ out2)

/-- Model of `Handler<StartRoom> for ServerActor`. -/
def startRoomHandler (s : ServerActor) (id : IdType) (conn_type : Nat) :
    Option (ServerActor × List Delivery) :=
  match (alookup s.players id).bind (fun x => x.room) with
  | none => some (s, [])
  | some room_id =>
    match alookup s.rooms room_id with
    | none => some (s, [])
    | some room =>
      let s1 := { s with available_rooms := removeSet room_id s.available_rooms }
      if room.state ≠ RoomState.Matchmaking ∨ room.players.length < 2 then some (s1, [])
      else
        let roomP : RoomData := { room with state := RoomState.Playing }
        let s2 := { s1 with rooms := aset s1.rooms room_id roomP }
        let ev := OutEvent.EventRoomStart conn_type (toString room_id)
        match (if roomP.in_game_count > 0 then
                 let in_game_players := roomP.players.filter (fun pid =>
                   match alookup s2.players pid with
                   | some x => x.in_game
                   | none => false)
                 leaveAll in_game_players s2
               else some (s2, ([] : List Delivery))) with
        | none => none
        | some (s3, outs1) =>
          match alookup s3.rooms room_id with
          | none => some (s3, outs1)
          | some roomAfter =>
            let members := roomAfter.players
            let s4 :=
              { s3 with players := (members.foldl (fun ps pid =>
                  match alookup ps pid with
                  | some x => aset ps pid { x with in_game := true }
                  | none => ps) s3.players) }
            let outs2 := members.filterMap (fun pid =>
              match alookup s3.players pid with
              | some _ => some (Delivery.event pid ev)
              | none => none)
            some ({ s4 with rooms := (aset s4.rooms room_id
                      { roomAfter with in_game_count := members.length }) },
                  outs1 ++ outs2)

/-- Model of `Handler<SendRelayMex> for ServerActor`.  The Rust code slices
the payload as raw bytes (`&msg.data[1..]`), which panics when byte index 1
is not a character boundary; the model therefore requires the first
character to be a single UTF-8 byte and faults otherwise. -/
def relayHandler (s : ServerActor) (sender_id : IdType) (data : String) :
    Option (ServerActor × List Delivery) :=
  if data = "" then some (s, [])
  else
    match alookup s.players sender_id with
    | none => none
    | some player =>
      match player.room.bind (fun room => alookup s.rooms room) with
      | none => some (s, [])
      | some room =>
        if data.front.utf8Size = 1 then
          let raw := relayPayload sender_id data
          some (s, room.players.filterMap (fun pid =>
            if pid = sender_id then none
            else
              match alookup s.players pid with
              | none => none
              | some q => if q.in_game then some (Delivery.relayRaw pid raw) else none))
        else none

/-- Model of `Handler<GameEndRequest> for ServerActor`. -/
def gameEndHandler (s : ServerActor) (id : IdType) :
    Option (Option (List PlayerObject) × ServerActor × List Delivery) :=
  match alookup s.players id with
  | none => none
  | some player =>
    match player.room.bind (fun x => (alookup s.rooms x).map (fun r => (x, r))) with
    | none => some (none, s, [])
    | some (room_id, room) =>
      if player.in_game = false then some (none, s, [])
      else
        let s1 :=
          { s with
            rooms := (aset s.rooms room_id
              { room with state := RoomState.Matchmaking,
                          in_game_count := room.in_game_count - 1 }),
            players := aset s.players id { player with in_game := false } }
        match alookup s1.rooms room_id with
        | none => none
        | some room' =>
          match collectPlayers s1 room'.players with
          | none => none
          | some users => some (some users, s1, [])

/-- The client-originated message surface of the coordinator. -/
inductive Op where
  | register (id : Option IdType) (addr : Nat) (obj : LoginData)
  | disconnect (id : IdType)
  | findRoom (id : IdType)
  | createRoom (id : IdType)
  | joinRoom (id : IdType) (room_id : IdType)
  | leaveRoom (id : IdType)
  | editCosmetics (id : IdType) (cosmetics : Nat)
  | startRoom (id : IdType) (conn_type : Nat)
  | relay (sender_id : IdType) (data : String)
  | gameEnd (id : IdType)
deriving DecidableEq, Repr

/-- One coordinator message processed to completion. -/
def stepOp (s : ServerActor) : Op → Option (ServerActor × List Delivery)
  | Op.register id addr obj => (registerHandler s id addr obj).map (fun x => x.2)
  | Op.disconnect id => disconnectHandler s id
  | Op.findRoom id => (findRoomHandler s id).map (fun x => x.2)
  | Op.createRoom id => (createRoomHandler s id).map (fun x => x.2)
  | Op.joinRoom id rid => (joinRoomHandler s id rid).map (fun x => x.2)
  | Op.leaveRoom id => leave_room_if_any s id
  | Op.editCosmetics id cos => editCosmeticsHandler s id cos
  | Op.startRoom id ct => startRoomHandler s id ct
  | Op.relay sid data => relayHandler s sid data
  | Op.gameEnd id => (gameEndHandler s id).map (fun x => x.2)

/-- Running a message sequence; `none` as soon as a message faults. -/
def runOps : List Op → ServerActor → Option ServerActor
  | [], s => some s
  | op :: rest, s =>
    match stepOp s op with
    | none => none
    | some (s', _) => runOps rest s'

/-- A coordinator state reachable from the empty initial state. -/
def Reachable (s : ServerActor) : Prop :=
  ∃ rng ops, runOps ops (initState rng) = some s

/-- Is the player flagged as host (false for an unregistered id), read from
a players map. -/
def isHostP (ps : List (IdType × UserData)) (p : IdType) : Bool :=
  match alookup ps p with
  | some u => u.obj.is_host
  | none => false

/-- Is the player flagged in-game (false for an unregistered id). -/
def inGameP (ps : List (IdType × UserData)) (p : IdType) : Bool :=
  match alookup ps p with
  | some u => u.in_game
  | none => false

/-- Is the id registered in a players map. -/
def regP (ps : List (IdType × UserData)) (p : IdType) : Bool :=
  (alookup ps p).isSome

/-- Number of members of a member list flagged as host. -/
def hostCount (ps : List (IdType × UserData)) (l : List IdType) : Nat :=
  (l.filter (fun p => isHostP ps p)).length

/-- Invariant 1 of the data model: every player with `room = Some r` points
at an existing room whose member set contains the player. -/
def inv1b (s : ServerActor) : Bool :=
  s.players.all (fun pu =>
    match pu.2.room with
    | none => true
    | some r =>
      match alookup s.rooms r with
      | none => false
      | some rd => decide (pu.1 ∈ rd.players))

/-- Invariant 2 of the data model: every room in the registry is non-empty
and has exactly one member flagged as host. -/
def inv2b (s : ServerActor) : Bool :=
  s.rooms.all (fun rr =>
    decide (rr.2.players ≠ []) && decide (hostCount s.players rr.2.players = 1))

/-- Invariant 3 of the data model: `in_game_count` equals the number of
current members flagged `in_game`. -/
def inv3b (s : ServerActor) : Bool :=
  s.rooms.all (fun rr =>
    decide (rr.2.in_game_count = (rr.2.players.filter (fun p => inGameP s.players p)).length))

/-- Invariant 4 of the data model: the Matchmaking Pool holds only
identifiers of existing rooms in state `Matchmaking`. -/
def inv4b (s : ServerActor) : Bool :=
  s.available_rooms.all (fun r =>
    match alookup s.rooms r with
    | some rd => decide (rd.state = RoomState.Matchmaking)
    | none => false)

/-- Invariants 1 to 4 of the data model together. -/
def inv14b (s : ServerActor) : Bool := inv1b s && inv2b s && inv3b s && inv4b s

/-- Decidable well-formedness of a lobby-phase coordinator state: key sets
of both registries are duplicate-free, invariants 1 to 4 hold, every room
member is a registered player whose `room` field points back at that room,
every room is in `Matchmaking` state with `in_game_count = 0`, member sets
are duplicate-free, no player is flagged `in_game`, and no roomless player
is flagged as host. -/
def lobbyWFb (s : ServerActor) : Bool :=
  decide (s.players.map Prod.fst).Nodup &&
  decide (s.rooms.map Prod.fst).Nodup &&
  s.players.all (fun pu =>
    !pu.2.in_game &&
    (match pu.2.room with
     | none => !pu.2.obj.is_host
     | some r =>
       match alookup s.rooms r with
       | none => false
       | some rd => decide (pu.1 ∈ rd.players))) &&
  s.rooms.all (fun rr =>
    decide (rr.2.state = RoomState.Matchmaking) &&
    decide (rr.2.players ≠ []) &&
    decide rr.2.players.Nodup &&
    decide (rr.2.in_game_count = 0) &&
    rr.2.players.all (fun p =>
      match alookup s.players p with
      | none => false
      | some u => decide (u.room = some rr.1)) &&
    decide (hostCount s.players rr.2.players = 1)) &&
  s.available_rooms.all (fun r => (alookup s.rooms r).isSome)

/-- The same well-formedness, in the quantified form the preservation
proofs use. -/
structure LobbyInv (s : ServerActor) : Prop where
  pnodup : (s.players.map Prod.fst).Nodup
  rnodup : (s.rooms.map Prod.fst).Nodup
  noGame : ∀ p u, alookup s.players p = some u → u.in_game = false
  noHostIdle : ∀ p u, alookup s.players p = some u → u.room = none → u.obj.is_host = false
  link : ∀ p u rid, alookup s.players p = some u → u.room = some rid →
    ∃ rd, alookup s.rooms rid = some rd ∧ p ∈ rd.players
  matchmaking : ∀ rid rd, alookup s.rooms rid = some rd → rd.state = RoomState.Matchmaking
  nonemptyRoom : ∀ rid rd, alookup s.rooms rid = some rd → rd.players ≠ []
  memNodup : ∀ rid rd, alookup s.rooms rid = some rd → rd.players.Nodup
  countZero : ∀ rid rd, alookup s.rooms rid = some rd → rd.in_game_count = 0
  backlink : ∀ rid rd p, alookup s.rooms rid = some rd → p ∈ rd.players →
    ∃ u, alookup s.players p = some u ∧ u.room = some rid
  oneHost : ∀ rid rd, alookup s.rooms rid = some rd → hostCount s.players rd.players = 1
  poolOk : ∀ rid, rid ∈ s.available_rooms → (alookup s.rooms rid).isSome = true

theorem alookup_eq_some_mem {α : Type} {m : List (IdType × α)} {k : IdType} {v : α}
    (h : alookup m k = some v) : (k, v) ∈ m := by
  induction m with
  | nil => simp [alookup] at h
  | cons hd tl ih =>
    obtain ⟨k0, v0⟩ := hd
    by_cases hk : k = k0
    · subst hk
      simp [alookup] at h
      subst h
      exact List.mem_cons_self _ _
    · simp [alookup, hk] at h
      exact List.mem_cons_of_mem _ (ih h)

theorem mem_alookup {α : Type} {m : List (IdType × α)}
    (hnd : (m.map Prod.fst).Nodup) {k : IdType} {v : α} (h : (k, v) ∈ m) :
    alookup m k = some v := by
  induction m with
  | nil => simp at h
  | cons hd tl ih =>
    obtain ⟨k0, v0⟩ := hd
    simp only [List.map_cons, List.nodup_cons] at hnd
    rcases List.mem_cons.1 h with h1 | h1
    · obtain ⟨rfl, rfl⟩ := Prod.mk.injEq .. ▸ h1
      simp [alookup]
    · have hk : k ≠ k0 := by
        rintro rfl
        exact hnd.1 (List.mem_map_of_mem Prod.fst h1)
      simp only [alookup, if_neg hk]
      exact ih hnd.2 h1

theorem alookup_eq_none {α : Type} {m : List (IdType × α)} {k : IdType}
    (h : k ∉ m.map Prod.fst) : alookup m k = none := by
  induction m with
  | nil => rfl
  | cons hd tl ih =>
    obtain ⟨k0, v0⟩ := hd
    simp only [List.map_cons, List.mem_cons] at h
    push_neg at h
    simp [alookup, h.1, ih h.2]

theorem alookup_aset_self {α : Type} (m : List (IdType × α)) (k : IdType) (v : α) :
    alookup (aset m k v) k = some v := by
  induction m with
  | nil => simp [aset, alookup]
  | cons hd tl ih =>
    obtain ⟨k0, v0⟩ := hd
    by_cases hk : k = k0
    · simp [aset, hk, alookup]
    · simp [aset, hk, alookup, ih]

theorem alookup_aset_ne {α : Type} (m : List (IdType × α)) {k k' : IdType} (v : α)
    (h : k' ≠ k) : alookup (aset m k v) k' = alookup m k' := by
  induction m with
  | nil => simp [aset, alookup, h]
  | cons hd tl ih =>
    obtain ⟨k0, v0⟩ := hd
    by_cases hk : k = k0
    · subst hk
      simp [aset, alookup, h]
    · by_cases hk' : k' = k0
      · simp [aset, hk, alookup, hk']
      · simp [aset, hk, alookup, hk', ih]

theorem mem_keys_aset {α : Type} {m : List (IdType × α)} {k x : IdType} {v : α}
    (h : x ∈ (aset m k v).map Prod.fst) : x ∈ m.map Prod.fst ∨ x = k := by
  induction m with
  | nil =>
    simp [aset] at h
    exact Or.inr h
  | cons hd tl ih =>
    obtain ⟨k0, v0⟩ := hd
    by_cases hk : k = k0
    · subst hk
      simp [aset] at h
      rcases h with h | h
      · exact Or.inr h
      · exact Or.inl (by simp [h])
    · simp only [aset, if_neg hk, List.map_cons, List.mem_cons] at h ⊢
      rcases h with h | h
      · exact Or.inl (Or.inl h)
      · rcases ih h with h1 | h1
        · exact Or.inl (Or.inr h1)
        · exact Or.inr h1

theorem keys_aset_nodup {α : Type} {m : List (IdType × α)}
    (hnd : (m.map Prod.fst).Nodup) (k : IdType) (v : α) :
    ((aset m k v).map Prod.fst).Nodup := by
  induction m with
  | nil => simp [aset]
  | cons hd tl ih =>
    obtain ⟨k0, v0⟩ := hd
    simp only [List.map_cons, List.nodup_cons] at hnd
    by_cases hk : k = k0
    · subst hk
      simp only [aset, if_true, eq_self_iff_true, List.map_cons, List.nodup_cons]
      simpa using hnd
    · simp only [aset, if_neg hk, List.map_cons, List.nodup_cons]
      refine ⟨?_, ih hnd.2⟩
      intro hmem
      rcases mem_keys_aset hmem with h1 | h1
      · exact hnd.1 h1
      · exact hk h1.symm

theorem mem_keys_aerase {α : Type} {m : List (IdType × α)} {k x : IdType}
    (h : x ∈ (aerase m k).map Prod.fst) : x ∈ m.map Prod.fst := by
  induction m with
  | nil => simp [aerase] at h
  | cons hd tl ih =>
    obtain ⟨k0, v0⟩ := hd
    by_cases hk : k = k0
    · subst hk
      simp only [aerase, if_true, eq_self_iff_true] at h
      simp only [List.map_cons, List.mem_cons]
      exact Or.inr h
    · simp only [aerase, if_neg hk, List.map_cons, List.mem_cons] at h ⊢
      rcases h with h | h
      · exact Or.inl h
      · exact Or.inr (ih h)

theorem keys_aerase_nodup {α : Type} {m : List (IdType × α)}
    (hnd : (m.map Prod.fst).Nodup) (k : IdType) :
    ((aerase m k).map Prod.fst).Nodup := by
  induction m with
  | nil => simp [aerase]
  | cons hd tl ih =>
    obtain ⟨k0, v0⟩ := hd
    simp only [List.map_cons, List.nodup_cons] at hnd
    by_cases hk : k = k0
    · subst hk
      simp only [aerase, if_pos rfl]
      exact hnd.2
    · simp only [aerase, if_neg hk, List.map_cons, List.nodup_cons]
      exact ⟨fun hmem => hnd.1 (mem_keys_aerase hmem), ih hnd.2⟩

theorem alookup_aerase_ne {α : Type} (m : List (IdType × α)) {k k' : IdType}
    (h : k' ≠ k) : alookup (aerase m k) k' = alookup m k' := by
  induction m with
  | nil => simp [aerase]
  | cons hd tl ih =>
    obtain ⟨k0, v0⟩ := hd
    by_cases hk : k = k0
    · subst hk
      simp [aerase, alookup, h]
    · by_cases hk' : k' = k0
      · simp [aerase, hk, alookup, hk']
      · simp [aerase, hk, alookup, hk', ih]

theorem alookup_aerase_self {α : Type} {m : List (IdType × α)}
    (hnd : (m.map Prod.fst).Nodup) (k : IdType) : alookup (aerase m k) k = none := by
  induction m with
  | nil => rfl
  | cons hd tl ih =>
    obtain ⟨k0, v0⟩ := hd
    simp only [List.map_cons, List.nodup_cons] at hnd
    by_cases hk : k = k0
    · subst hk
      simp only [aerase, if_pos rfl]
      exact alookup_eq_none hnd.1
    · simp only [aerase, if_neg hk, alookup, if_neg hk]
      exact ih hnd.2

theorem mem_insertSet {x y : IdType} {l : List IdType} :
    y ∈ insertSet x l ↔ y ∈ l ∨ y = x := by
  by_cases hx : x ∈ l
  · simp only [insertSet, if_pos hx]
    constructor
    · exact fun h => Or.inl h
    · rintro (h | rfl)
      · exact h
      · exact hx
  · simp [insertSet, if_neg hx, List.mem_append]

theorem insertSet_nodup {x : IdType} {l : List IdType} (h : l.Nodup) :
    (insertSet x l).Nodup := by
  by_cases hx : x ∈ l
  · simpa [insertSet, if_pos hx] using h
  · simp only [insertSet, if_neg hx]
    apply List.Nodup.append h (List.nodup_singleton x)
    intro a ha hax
    simp only [List.mem_singleton] at hax
    subst hax
    exact hx ha

theorem insertSet_of_not_mem {x : IdType} {l : List IdType} (h : x ∉ l) :
    insertSet x l = l ++ [x] := by
  simp [insertSet, if_neg h]

theorem mem_removeSet {x y : IdType} {l : List IdType} :
    y ∈ removeSet x l ↔ y ∈ l ∧ y ≠ x := by
  simp [removeSet, List.mem_filter]

theorem removeSet_nodup {x : IdType} {l : List IdType} (h : l.Nodup) :
    (removeSet x l).Nodup := h.filter _

theorem removeSet_eq_self {x : IdType} {l : List IdType} (h : x ∉ l) :
    removeSet x l = l := by
  apply List.filter_eq_self.2
  intro a ha
  simp only [decide_eq_true_eq]
  rintro rfl
  exact h ha

theorem hostCount_congr {ps1 ps2 : List (IdType × UserData)} {l : List IdType}
    (h : ∀ p ∈ l, isHostP ps1 p = isHostP ps2 p) :
    hostCount ps1 l = hostCount ps2 l := by
  unfold hostCount
  rw [List.filter_congr h]

theorem nodup_all_eq_singleton {l : List IdType} {a : IdType} (hnd : l.Nodup)
    (ha : a ∈ l) (hall : ∀ b ∈ l, b = a) : l = [a] := by
  cases l with
  | nil => cases ha
  | cons x t =>
    have hx : x = a := hall x (List.mem_cons_self x t)
    subst hx
    have ht : t = [] := by
      apply List.eq_nil_iff_forall_not_mem.2
      intro b hb
      have hbx := hall b (List.mem_cons_of_mem x hb)
      subst hbx
      exact (List.nodup_cons.1 hnd).1 hb
    rw [ht]

theorem length_filter_eq_one {l : List IdType} {f : IdType → Bool} {a : IdType}
    (hnd : l.Nodup) (ha : a ∈ l) (hfa : f a = true)
    (huniq : ∀ b ∈ l, f b = true → b = a) : (l.filter f).length = 1 := by
  have hl : l.filter f = [a] := by
    apply nodup_all_eq_singleton (hnd.filter f)
    · exact List.mem_filter.2 ⟨ha, hfa⟩
    · intro b hb
      have hb' := List.mem_filter.1 hb
      exact huniq b hb'.1 hb'.2
  rw [hl]
  rfl

theorem filter_unique_of_length_one {l : List IdType} {f : IdType → Bool} {a : IdType}
    (hlen : (l.filter f).length = 1) (ha : a ∈ l) (hfa : f a = true) :
    ∀ b ∈ l, b ≠ a → f b = false := by
  intro b hb hba
  cases hfb : f b with
  | false => rfl
  | true =>
    obtain ⟨c, hc⟩ := List.length_eq_one.1 hlen
    have ha' : a ∈ l.filter f := List.mem_filter.2 ⟨ha, hfa⟩
    have hb' : b ∈ l.filter f := List.mem_filter.2 ⟨hb, hfb⟩
    rw [hc] at ha' hb'
    simp only [List.mem_singleton] at ha' hb'
    exact absurd (hb'.trans ha'.symm) hba

theorem lobbyWFb_sound {s : ServerActor} (h : lobbyWFb s = true) : LobbyInv s := by
  unfold lobbyWFb at h
  simp only [Bool.and_eq_true, List.all_eq_true, decide_eq_true_eq,
    Bool.not_eq_true'] at h
  obtain ⟨⟨⟨⟨hp, hr⟩, hpl⟩, hrm⟩, hpool⟩ := h
  refine ⟨hp, hr, ?_, ?_, ?_, ?_, ?_, ?_, ?_, ?_, ?_, hpool⟩
  · intro p u hu
    exact (hpl (p, u) (alookup_eq_some_mem hu)).1
  · intro p u hu hnone
    have h1 := (hpl (p, u) (alookup_eq_some_mem hu)).2
    rw [hnone] at h1
    simpa using h1
  · intro p u rid hu hrid
    have h1 := (hpl (p, u) (alookup_eq_some_mem hu)).2
    simp only [hrid] at h1
    cases halo : alookup s.rooms rid with
    | none => rw [halo] at h1; simp at h1
    | some rd =>
      rw [halo] at h1
      simp only [decide_eq_true_eq] at h1
      exact ⟨rd, rfl, h1⟩
  · intro rid rd hrd
    exact (hrm (rid, rd) (alookup_eq_some_mem hrd)).1.1.1.1.1
  · intro rid rd hrd
    exact (hrm (rid, rd) (alookup_eq_some_mem hrd)).1.1.1.1.2
  · intro rid rd hrd
    exact (hrm (rid, rd) (alookup_eq_some_mem hrd)).1.1.1.2
  · intro rid rd hrd
    exact (hrm (rid, rd) (alookup_eq_some_mem hrd)).1.1.2
  · intro rid rd p hrd hp
    have h1 := (hrm (rid, rd) (alookup_eq_some_mem hrd)).1.2 p hp
    cases hup : alookup s.players p with
    | none => rw [hup] at h1; simp at h1
    | some u =>
      rw [hup] at h1
      simp only [decide_eq_true_eq] at h1
      exact ⟨u, rfl, h1⟩
  · intro rid rd hrd
    exact (hrm (rid, rd) (alookup_eq_some_mem hrd)).2

theorem inv14_of_lobbyInv {s : ServerActor} (h : LobbyInv s) : inv14b s = true := by
  unfold inv14b inv1b inv2b inv3b inv4b
  simp only [Bool.and_eq_true, List.all_eq_true, decide_eq_true_eq]
  refine ⟨⟨⟨?_, ?_⟩, ?_⟩, ?_⟩
  · intro x hx
    have hu : alookup s.players x.1 = some x.2 := mem_alookup h.pnodup hx
    cases hroom : x.2.room with
    | none => simp
    | some r =>
      obtain ⟨rd, hrd, hmem⟩ := h.link x.1 x.2 r hu hroom
      simp [hrd, hmem]
  · intro x hx
    have hrd : alookup s.rooms x.1 = some x.2 := mem_alookup h.rnodup hx
    exact ⟨h.nonemptyRoom x.1 x.2 hrd, h.oneHost x.1 x.2 hrd⟩
  · intro x hx
    have hrd : alookup s.rooms x.1 = some x.2 := mem_alookup h.rnodup hx
    have hfil : x.2.players.filter (fun p => inGameP s.players p) = [] := by
      apply List.filter_eq_nil_iff.2
      intro p hp
      obtain ⟨u, hu, _⟩ := h.backlink x.1 x.2 p hrd hp
      simp [inGameP, hu, h.noGame p u hu]
    rw [hfil, h.countZero x.1 x.2 hrd]
    rfl
  · intro r hr
    have := h.poolOk r hr
    cases hrd : alookup s.rooms r with
    | none => rw [hrd] at this; simp at this
    | some rd => simp [h.matchmaking r rd hrd]

theorem leave_cases {s : ServerActor} {pid : IdType} {s' : ServerActor} {out : List Delivery}
    (h : leave_room_if_any s pid = some (s', out)) :
    (s' = s ∧ out = [] ∧
      (alookup s.players pid = none ∨ ∃ u, alookup s.players pid = some u ∧ u.room = none))
    ∨ ∃ u rid room, alookup s.players pid = some u ∧ u.room = some rid ∧
        alookup s.rooms rid = some room ∧
        ((removeSet pid room.players = [] ∧
          s' = remove_room (leaveBase s pid u rid room) rid ∧ out = [])
         ∨ ∃ fp rest, removeSet pid room.players = fp :: rest ∧
             ((u.obj.is_host = false ∧ s' = leaveBase s pid u rid room ∧
               out = leaveEvents (leaveBase s pid u rid room).players (fp :: rest) pid none)
              ∨ ∃ p, u.obj.is_host = true ∧
                  alookup (leaveBase s pid u rid room).players fp = some p ∧
                  s' = promoteHost (leaveBase s pid u rid room) fp p ∧
                  out = leaveEvents (promoteHost (leaveBase s pid u rid room) fp p).players
                          (fp :: rest) pid (some p.obj.id))) := by
  unfold leave_room_if_any at h
  cases hu : alookup s.players pid with
  | none =>
    simp only [hu] at h
    obtain ⟨rfl, rfl⟩ := Prod.mk.injEq .. ▸ (Option.some.injEq .. ▸ h).symm
    exact Or.inl ⟨rfl, rfl, Or.inl rfl⟩
  | some u =>
    simp only [hu] at h
    cases hr : u.room with
    | none =>
      simp only [hr] at h
      obtain ⟨rfl, rfl⟩ := Prod.mk.injEq .. ▸ (Option.some.injEq .. ▸ h).symm
      exact Or.inl ⟨rfl, rfl, Or.inr ⟨u, rfl, hr⟩⟩
    | some rid =>
      simp only [hr] at h
      cases hrd : alookup s.rooms rid with
      | none =>
        simp only [hrd] at h
        exact Option.noConfusion h
      | some room =>
        simp only [hrd] at h
        cases hm : removeSet pid room.players with
        | nil =>
          simp only [hm] at h
          obtain ⟨rfl, rfl⟩ := Prod.mk.injEq .. ▸ (Option.some.injEq .. ▸ h).symm
          exact Or.inr ⟨u, rid, room, rfl, hr, hrd, Or.inl ⟨hm, rfl, rfl⟩⟩
        | cons fp rest =>
          simp only [hm] at h
          by_cases hh : u.obj.is_host = true
          · rw [if_pos hh] at h
            cases hp : alookup (leaveBase s pid u rid room).players fp with
            | none =>
              simp only [hp] at h
              exact Option.noConfusion h
            | some p =>
              simp only [hp] at h
              obtain ⟨rfl, rfl⟩ := Prod.mk.injEq .. ▸ (Option.some.injEq .. ▸ h).symm
              exact Or.inr ⟨u, rid, room, rfl, hr, hrd,
                Or.inr ⟨fp, rest, hm, Or.inr ⟨p, hh, hp, rfl, rfl⟩⟩⟩
          · rw [if_neg hh] at h
            obtain ⟨rfl, rfl⟩ := Prod.mk.injEq .. ▸ (Option.some.injEq .. ▸ h).symm
            exact Or.inr ⟨u, rid, room, rfl, hr, hrd,
              Or.inr ⟨fp, rest, hm, Or.inl ⟨Bool.not_eq_true _ ▸ hh, rfl, rfl⟩⟩⟩

theorem leave_of_no_room {s : ServerActor} {pid : IdType}
    (h : alookup s.players pid = none ∨ ∃ u, alookup s.players pid = some u ∧ u.room = none) :
    leave_room_if_any s pid = some (s, []) := by
  unfold leave_room_if_any
  rcases h with h | ⟨u, hu, hr⟩
  · simp [h]
  · simp [hu, hr]

theorem room_unique_of_mem {s : ServerActor} {pid : IdType} {u : UserData} {rid : IdType}
    (hs : LobbyInv s) (hu : alookup s.players pid = some u) (hr : u.room = some rid)
    {r' : IdType} {rd' : RoomData} (hrd' : alookup s.rooms r' = some rd')
    (hp : pid ∈ rd'.players) : r' = rid := by
  obtain ⟨u', hu', hru'⟩ := hs.backlink r' rd' pid hrd' hp
  rw [hu] at hu'
  obtain rfl := Option.some.inj hu'
  rw [hr] at hru'
  exact (Option.some.inj hru').symm

theorem mem_room_of_link {s : ServerActor} {pid : IdType} {u : UserData} {rid : IdType}
    {room : RoomData} (hs : LobbyInv s) (hu : alookup s.players pid = some u)
    (hr : u.room = some rid) (hrd : alookup s.rooms rid = some room) :
    pid ∈ room.players := by
  obtain ⟨rd, hrd', hm⟩ := hs.link pid u rid hu hr
  rw [hrd] at hrd'
  obtain rfl := Option.some.inj hrd'
  exact hm

theorem filter_removeSet_of_not {l : List IdType} {f : IdType → Bool} {x : IdType}
    (hx : f x = false) : (removeSet x l).filter f = l.filter f := by
  unfold removeSet
  rw [List.filter_filter]
  apply List.filter_congr
  intro a _
  cases hfa : f a with
  | false => simp
  | true =>
    have hax : a ≠ x := by
      rintro rfl
      rw [hfa] at hx
      exact Bool.noConfusion hx
    simp [hax]

theorem lobby_leave_base {s : ServerActor} {pid : IdType} {u : UserData} {rid : IdType}
    {room : RoomData} (hs : LobbyInv s) (hu : alookup s.players pid = some u)
    (hr : u.room = some rid) (hrd : alookup s.rooms rid = some room)
    (hh : u.obj.is_host = false) {fp : IdType} {rest : List IdType}
    (hm : removeSet pid room.players = fp :: rest) :
    LobbyInv (leaveBase s pid u rid room) := by
  have hgame : u.in_game = false := hs.noGame pid u hu
  have hBp_pid : alookup (leaveBase s pid u rid room).players pid =
      some { u with room := none, obj := { u.obj with is_host := false } } := by
    simp [leaveBase, alookup_aset_self]
  have hBp_ne : ∀ q, q ≠ pid →
      alookup (leaveBase s pid u rid room).players q = alookup s.players q := by
    intro q hq
    simp [leaveBase, alookup_aset_ne _ _ hq]
  have hBr_rid : alookup (leaveBase s pid u rid room).rooms rid =
      some { room with players := removeSet pid room.players,
                       in_game_count := room.in_game_count } := by
    simp [leaveBase, alookup_aset_self, hgame]
  have hBr_ne : ∀ r, r ≠ rid →
      alookup (leaveBase s pid u rid room).rooms r = alookup s.rooms r := by
    intro r hrne
    simp [leaveBase, alookup_aset_ne _ _ hrne]
  refine ⟨?_, ?_, ?_, ?_, ?_, ?_, ?_, ?_, ?_, ?_, ?_, ?_⟩
  · exact keys_aset_nodup hs.pnodup _ _
  · exact keys_aset_nodup hs.rnodup _ _
  · intro q u' hq
    by_cases hqp : q = pid
    · subst hqp
      rw [hBp_pid] at hq
      obtain rfl := Option.some.inj hq
      exact hgame
    · rw [hBp_ne q hqp] at hq
      exact hs.noGame q u' hq
  · intro q u' hq hroomq
    by_cases hqp : q = pid
    · subst hqp
      rw [hBp_pid] at hq
      obtain rfl := Option.some.inj hq
      rfl
    · rw [hBp_ne q hqp] at hq
      exact hs.noHostIdle q u' hq hroomq
  · intro q u' r' hq hroomq
    by_cases hqp : q = pid
    · subst hqp
      rw [hBp_pid] at hq
      obtain rfl := Option.some.inj hq
      cases hroomq
    · rw [hBp_ne q hqp] at hq
      obtain ⟨rd, hrd', hmem'⟩ := hs.link q u' r' hq hroomq
      by_cases hrr : r' = rid
      · subst hrr
        rw [hrd] at hrd'
        obtain rfl := Option.some.inj hrd'
        exact ⟨_, hBr_rid, mem_removeSet.2 ⟨hmem', hqp⟩⟩
      · refine ⟨rd, ?_, hmem'⟩
        rw [hBr_ne r' hrr]
        exact hrd'
  · intro r rd hq
    by_cases hrr : r = rid
    · subst hrr
      rw [hBr_rid] at hq
      obtain rfl := Option.some.inj hq
      exact hs.matchmaking _ room hrd
    · rw [hBr_ne r hrr] at hq
      exact hs.matchmaking r rd hq
  · intro r rd hq
    by_cases hrr : r = rid
    · subst hrr
      rw [hBr_rid] at hq
      obtain rfl := Option.some.inj hq
      show removeSet pid room.players ≠ []
      rw [hm]
      exact List.cons_ne_nil fp rest
    · rw [hBr_ne r hrr] at hq
      exact hs.nonemptyRoom r rd hq
  · intro r rd hq
    by_cases hrr : r = rid
    · subst hrr
      rw [hBr_rid] at hq
      obtain rfl := Option.some.inj hq
      exact removeSet_nodup (hs.memNodup _ room hrd)
    · rw [hBr_ne r hrr] at hq
      exact hs.memNodup r rd hq
  · intro r rd hq
    by_cases hrr : r = rid
    · subst hrr
      rw [hBr_rid] at hq
      obtain rfl := Option.some.inj hq
      exact hs.countZero _ room hrd
    · rw [hBr_ne r hrr] at hq
      exact hs.countZero r rd hq
  · intro r rd p hq hp
    by_cases hrr : r = rid
    · subst hrr
      rw [hBr_rid] at hq
      obtain rfl := Option.some.inj hq
      have hp' := mem_removeSet.1 hp
      obtain ⟨u2, hu2, hru2⟩ := hs.backlink _ room p hrd hp'.1
      refine ⟨u2, ?_, hru2⟩
      rw [hBp_ne p hp'.2]
      exact hu2
    · rw [hBr_ne r hrr] at hq
      obtain ⟨u2, hu2, hru2⟩ := hs.backlink r rd p hq hp
      have hppid : p ≠ pid := by
        rintro rfl
        exact hrr (room_unique_of_mem hs hu hr hq hp)
      refine ⟨u2, ?_, hru2⟩
      rw [hBp_ne p hppid]
      exact hu2
  · intro r rd hq
    by_cases hrr : r = rid
    · subst hrr
      rw [hBr_rid] at hq
      obtain rfl := Option.some.inj hq
      have hcongr : ∀ p ∈ removeSet pid room.players,
          isHostP (leaveBase s pid u r room).players p = isHostP s.players p := by
        intro p hp
        unfold isHostP
        rw [hBp_ne p (mem_removeSet.1 hp).2]
      show hostCount (leaveBase s pid u r room).players (removeSet pid room.players) = 1
      rw [hostCount_congr hcongr]
      unfold hostCount
      rw [filter_removeSet_of_not (by unfold isHostP; rw [hu]; exact hh)]
      have h1 := hs.oneHost _ room hrd
      unfold hostCount at h1
      exact h1
    · rw [hBr_ne r hrr] at hq
      have h1 := hs.oneHost r rd hq
      have hcongr : ∀ p ∈ rd.players,
          isHostP (leaveBase s pid u rid room).players p = isHostP s.players p := by
        intro p hp
        have hppid : p ≠ pid := by
          rintro rfl
          exact hrr (room_unique_of_mem hs hu hr hq hp)
        unfold isHostP
        rw [hBp_ne p hppid]
      rw [hostCount_congr hcongr]
      exact h1
  · intro r hrp
    by_cases hrr : r = rid
    · subst hrr
      rw [hBr_rid]
      rfl
    · rw [hBr_ne r hrr]
      exact hs.poolOk r hrp

theorem lobby_leave_empty {s : ServerActor} {pid : IdType} {u : UserData} {rid : IdType}
    {room : RoomData} (hs : LobbyInv s) (hu : alookup s.players pid = some u)
    (hr : u.room = some rid) (hrd : alookup s.rooms rid = some room)
    (hm : removeSet pid room.players = []) :
    LobbyInv (remove_room (leaveBase s pid u rid room) rid) := by
  have hgame : u.in_game = false := hs.noGame pid u hu
  have hall : ∀ x ∈ room.players, x = pid := by
    intro x hx
    by_contra hxne
    have hxr : x ∈ removeSet pid room.players := mem_removeSet.2 ⟨hx, hxne⟩
    rw [hm] at hxr
    cases hxr
  have hBp_pid : alookup (remove_room (leaveBase s pid u rid room) rid).players pid =
      some { u with room := none, obj := { u.obj with is_host := false } } := by
    simp [remove_room, leaveBase, alookup_aset_self]
  have hBp_ne : ∀ q, q ≠ pid →
      alookup (remove_room (leaveBase s pid u rid room) rid).players q =
        alookup s.players q := by
    intro q hq
    simp [remove_room, leaveBase, alookup_aset_ne _ _ hq]
  have hRnone : alookup (remove_room (leaveBase s pid u rid room) rid).rooms rid = none := by
    show alookup (aerase (leaveBase s pid u rid room).rooms rid) rid = none
    exact alookup_aerase_self (keys_aset_nodup hs.rnodup _ _) rid
  have hRne : ∀ r, r ≠ rid →
      alookup (remove_room (leaveBase s pid u rid room) rid).rooms r = alookup s.rooms r := by
    intro r hrr
    show alookup (aerase (leaveBase s pid u rid room).rooms rid) r = _
    rw [alookup_aerase_ne _ hrr]
    show alookup (aset s.rooms rid _) r = _
    rw [alookup_aset_ne _ _ hrr]
  have hRr : ∀ r rd,
      alookup (remove_room (leaveBase s pid u rid room) rid).rooms r = some rd →
      r ≠ rid ∧ alookup s.rooms r = some rd := by
    intro r rd hq
    by_cases hrr : r = rid
    · subst hrr
      rw [hRnone] at hq
      exact Option.noConfusion hq
    · rw [hRne r hrr] at hq
      exact ⟨hrr, hq⟩
  have hmemne : ∀ r rd, r ≠ rid → alookup s.rooms r = some rd →
      ∀ q ∈ rd.players, q ≠ pid := by
    intro r rd hrr hq q hqm
    rintro rfl
    exact hrr (room_unique_of_mem hs hu hr hq hqm)
  refine ⟨?_, ?_, ?_, ?_, ?_, ?_, ?_, ?_, ?_, ?_, ?_, ?_⟩
  · exact keys_aset_nodup hs.pnodup _ _
  · exact keys_aerase_nodup (keys_aset_nodup hs.rnodup _ _) _
  · intro q u' hq
    by_cases hqp : q = pid
    · subst hqp
      rw [hBp_pid] at hq
      obtain rfl := Option.some.inj hq
      exact hgame
    · rw [hBp_ne q hqp] at hq
      exact hs.noGame q u' hq
  · intro q u' hq hroomq
    by_cases hqp : q = pid
    · subst hqp
      rw [hBp_pid] at hq
      obtain rfl := Option.some.inj hq
      rfl
    · rw [hBp_ne q hqp] at hq
      exact hs.noHostIdle q u' hq hroomq
  · intro q u' r' hq hroomq
    by_cases hqp : q = pid
    · subst hqp
      rw [hBp_pid] at hq
      obtain rfl := Option.some.inj hq
      cases hroomq
    · rw [hBp_ne q hqp] at hq
      obtain ⟨rd, hrd', hmem'⟩ := hs.link q u' r' hq hroomq
      have hrr : r' ≠ rid := by
        rintro rfl
        rw [hrd] at hrd'
        obtain rfl := Option.some.inj hrd'
        exact hqp (hall q hmem')
      refine ⟨rd, ?_, hmem'⟩
      rw [hRne r' hrr]
      exact hrd'
  · intro r rd hq
    exact hs.matchmaking r rd (hRr r rd hq).2
  · intro r rd hq
    exact hs.nonemptyRoom r rd (hRr r rd hq).2
  · intro r rd hq
    exact hs.memNodup r rd (hRr r rd hq).2
  · intro r rd hq
    exact hs.countZero r rd (hRr r rd hq).2
  · intro r rd p hq hp
    obtain ⟨hrr, hq'⟩ := hRr r rd hq
    obtain ⟨u2, hu2, hru2⟩ := hs.backlink r rd p hq' hp
    refine ⟨u2, ?_, hru2⟩
    rw [hBp_ne p (hmemne r rd hrr hq' p hp)]
    exact hu2
  · intro r rd hq
    obtain ⟨hrr, hq'⟩ := hRr r rd hq
    have hcongr : ∀ p ∈ rd.players,
        isHostP (remove_room (leaveBase s pid u rid room) rid).players p =
          isHostP s.players p := by
      intro p hp
      unfold isHostP
      rw [hBp_ne p (hmemne r rd hrr hq' p hp)]
    rw [hostCount_congr hcongr]
    exact hs.oneHost r rd hq'
  · intro r hrp
    have hrp' : r ∈ removeSet rid s.available_rooms := hrp
    have hr2 := mem_removeSet.1 hrp'
    have hpok := hs.poolOk r hr2.1
    rw [hRne r hr2.2]
    exact hpok

theorem lobby_leave_host {s : ServerActor} {pid : IdType} {u : UserData} {rid : IdType}
    {room : RoomData} {fp : IdType} {rest : List IdType} {p : UserData}
    (hs : LobbyInv s) (hu : alookup s.players pid = some u)
    (hr : u.room = some rid) (hrd : alookup s.rooms rid = some room)
    (hh : u.obj.is_host = true) (hm : removeSet pid room.players = fp :: rest)
    (hp : alookup (leaveBase s pid u rid room).players fp = some p) :
    LobbyInv (promoteHost (leaveBase s pid u rid room) fp p) := by
  have hgame : u.in_game = false := hs.noGame pid u hu
  have hpidmem : pid ∈ room.players := mem_room_of_link hs hu hr hrd
  have hfp_mem : fp ∈ removeSet pid room.players := by
    rw [hm]
    exact List.mem_cons_self fp rest
  have hfp_ne : fp ≠ pid := (mem_removeSet.1 hfp_mem).2
  have hfp_room : fp ∈ room.players := (mem_removeSet.1 hfp_mem).1
  have hBp_ne0 : ∀ q, q ≠ pid →
      alookup (leaveBase s pid u rid room).players q = alookup s.players q := by
    intro q hq
    simp [leaveBase, alookup_aset_ne _ _ hq]
  have hps : alookup s.players fp = some p := by
    rw [← hBp_ne0 fp hfp_ne]
    exact hp
  have hproom : p.room = some rid := by
    obtain ⟨u2, hu2, hru2⟩ := hs.backlink rid room fp hrd hfp_room
    rw [hps] at hu2
    obtain rfl := Option.some.inj hu2
    exact hru2
  have hpgame : p.in_game = false := hs.noGame fp p hps
  have hPp_fp : alookup (promoteHost (leaveBase s pid u rid room) fp p).players fp =
      some { p with obj := { p.obj with is_host := true } } := by
    simp [promoteHost, alookup_aset_self]
  have hPp_pid : alookup (promoteHost (leaveBase s pid u rid room) fp p).players pid =
      some { u with room := none, obj := { u.obj with is_host := false } } := by
    show alookup (aset (leaveBase s pid u rid room).players fp _) pid = _
    rw [alookup_aset_ne _ _ (Ne.symm hfp_ne)]
    simp [leaveBase, alookup_aset_self]
  have hPp_ne : ∀ q, q ≠ pid → q ≠ fp →
      alookup (promoteHost (leaveBase s pid u rid room) fp p).players q =
        alookup s.players q := by
    intro q hq1 hq2
    show alookup (aset (leaveBase s pid u rid room).players fp _) q = _
    rw [alookup_aset_ne _ _ hq2]
    exact hBp_ne0 q hq1
  have hPr_rid : alookup (promoteHost (leaveBase s pid u rid room) fp p).rooms rid =
      some { room with players := removeSet pid room.players,
                       in_game_count := room.in_game_count } := by
    show alookup (leaveBase s pid u rid room).rooms rid = _
    simp [leaveBase, alookup_aset_self, hgame]
  have hPr_ne : ∀ r, r ≠ rid →
      alookup (promoteHost (leaveBase s pid u rid room) fp p).rooms r =
        alookup s.rooms r := by
    intro r hrr
    show alookup (leaveBase s pid u rid room).rooms r = _
    simp [leaveBase, alookup_aset_ne _ _ hrr]
  have hmemne : ∀ r rd, r ≠ rid → alookup s.rooms r = some rd →
      ∀ q ∈ rd.players, q ≠ pid ∧ q ≠ fp := by
    intro r rd hrr hq q hqm
    constructor
    · rintro rfl
      exact hrr (room_unique_of_mem hs hu hr hq hqm)
    · rintro rfl
      exact hrr (room_unique_of_mem hs hps hproom hq hqm)
  refine ⟨?_, ?_, ?_, ?_, ?_, ?_, ?_, ?_, ?_, ?_, ?_, ?_⟩
  · exact keys_aset_nodup (keys_aset_nodup hs.pnodup _ _) _ _
  · exact keys_aset_nodup hs.rnodup _ _
  · intro q u' hq
    by_cases hq2 : q = fp
    · subst hq2
      rw [hPp_fp] at hq
      obtain rfl := Option.some.inj hq
      exact hpgame
    · by_cases hq1 : q = pid
      · subst hq1
        rw [hPp_pid] at hq
        obtain rfl := Option.some.inj hq
        exact hgame
      · rw [hPp_ne q hq1 hq2] at hq
        exact hs.noGame q u' hq
  · intro q u' hq hroomq
    by_cases hq2 : q = fp
    · subst hq2
      rw [hPp_fp] at hq
      obtain rfl := Option.some.inj hq
      have hroomq' : p.room = none := hroomq
      rw [hproom] at hroomq'
      exact Option.noConfusion hroomq'
    · by_cases hq1 : q = pid
      · subst hq1
        rw [hPp_pid] at hq
        obtain rfl := Option.some.inj hq
        rfl
      · rw [hPp_ne q hq1 hq2] at hq
        exact hs.noHostIdle q u' hq hroomq
  · intro q u' r' hq hroomq
    by_cases hq2 : q = fp
    · subst hq2
      rw [hPp_fp] at hq
      obtain rfl := Option.some.inj hq
      have hr' : r' = rid := by
        have : p.room = some r' := hroomq
        rw [hproom] at this
        exact (Option.some.inj this).symm
      subst hr'
      exact ⟨_, hPr_rid, hfp_mem⟩
    · by_cases hq1 : q = pid
      · subst hq1
        rw [hPp_pid] at hq
        obtain rfl := Option.some.inj hq
        cases hroomq
      · rw [hPp_ne q hq1 hq2] at hq
        obtain ⟨rd, hrd', hmem'⟩ := hs.link q u' r' hq hroomq
        by_cases hrr : r' = rid
        · subst hrr
          rw [hrd] at hrd'
          obtain rfl := Option.some.inj hrd'
          exact ⟨_, hPr_rid, mem_removeSet.2 ⟨hmem', hq1⟩⟩
        · refine ⟨rd, ?_, hmem'⟩
          rw [hPr_ne r' hrr]
          exact hrd'
  · intro r rd hq
    by_cases hrr : r = rid
    · subst hrr
      rw [hPr_rid] at hq
      obtain rfl := Option.some.inj hq
      exact hs.matchmaking _ room hrd
    · rw [hPr_ne r hrr] at hq
      exact hs.matchmaking r rd hq
  · intro r rd hq
    by_cases hrr : r = rid
    · subst hrr
      rw [hPr_rid] at hq
      obtain rfl := Option.some.inj hq
      show removeSet pid room.players ≠ []
      rw [hm]
      exact List.cons_ne_nil fp rest
    · rw [hPr_ne r hrr] at hq
      exact hs.nonemptyRoom r rd hq
  · intro r rd hq
    by_cases hrr : r = rid
    · subst hrr
      rw [hPr_rid] at hq
      obtain rfl := Option.some.inj hq
      exact removeSet_nodup (hs.memNodup _ room hrd)
    · rw [hPr_ne r hrr] at hq
      exact hs.memNodup r rd hq
  · intro r rd hq
    by_cases hrr : r = rid
    · subst hrr
      rw [hPr_rid] at hq
      obtain rfl := Option.some.inj hq
      exact hs.countZero _ room hrd
    · rw [hPr_ne r hrr] at hq
      exact hs.countZero r rd hq
  · intro r rd p' hq hpmem
    by_cases hrr : r = rid
    · subst hrr
      rw [hPr_rid] at hq
      obtain rfl := Option.some.inj hq
      by_cases hpf : p' = fp
      · subst hpf
        refine ⟨_, hPp_fp, ?_⟩
        show p.room = some r
        exact hproom
      · have hppid := (mem_removeSet.1 hpmem).2
        obtain ⟨u2, hu2, hru2⟩ := hs.backlink _ room p' hrd (mem_removeSet.1 hpmem).1
        refine ⟨u2, ?_, hru2⟩
        rw [hPp_ne p' hppid hpf]
        exact hu2
    · rw [hPr_ne r hrr] at hq
      obtain ⟨u2, hu2, hru2⟩ := hs.backlink r rd p' hq hpmem
      obtain ⟨hne1, hne2⟩ := hmemne r rd hrr hq p' hpmem
      refine ⟨u2, ?_, hru2⟩
      rw [hPp_ne p' hne1 hne2]
      exact hu2
  · intro r rd hq
    by_cases hrr : r = rid
    · subst hrr
      rw [hPr_rid] at hq
      obtain rfl := Option.some.inj hq
      show hostCount (promoteHost (leaveBase s pid u r room) fp p).players
        (removeSet pid room.players) = 1
      unfold hostCount
      apply length_filter_eq_one (removeSet_nodup (hs.memNodup _ room hrd)) hfp_mem
      · unfold isHostP
        rw [hPp_fp]
      · intro b hb hhostb
        by_contra hbfp
        have hbpid := (mem_removeSet.1 hb).2
        have hfalse : isHostP s.players b = false := by
          apply filter_unique_of_length_one (f := fun q => isHostP s.players q)
            (hs.oneHost _ room hrd) hpidmem ?_ b (mem_removeSet.1 hb).1 hbpid
          show isHostP s.players pid = true
          unfold isHostP
          rw [hu]
          exact hh
        unfold isHostP at hhostb
        rw [hPp_ne b hbpid hbfp] at hhostb
        unfold isHostP at hfalse
        rw [hfalse] at hhostb
        exact Bool.noConfusion hhostb
    · rw [hPr_ne r hrr] at hq
      have h1 := hs.oneHost r rd hq
      have hcongr : ∀ q ∈ rd.players,
          isHostP (promoteHost (leaveBase s pid u rid room) fp p).players q =
            isHostP s.players q := by
        intro q hqm
        obtain ⟨hne1, hne2⟩ := hmemne r rd hrr hq q hqm
        unfold isHostP
        rw [hPp_ne q hne1 hne2]
      rw [hostCount_congr hcongr]
      exact h1
  · intro r hrp
    by_cases hrr : r = rid
    · subst hrr
      rw [hPr_rid]
      rfl
    · rw [hPr_ne r hrr]
      exact hs.poolOk r hrp

theorem leave_preserves_lobbyInv {s s' : ServerActor} {pid : IdType} {out : List Delivery}
    (hs : LobbyInv s) (h : leave_room_if_any s pid = some (s', out)) : LobbyInv s' := by
  rcases leave_cases h with ⟨rfl, rfl, _⟩ | ⟨u, rid, room, hu, hr, hrd, hcase⟩
  · exact hs
  · rcases hcase with ⟨hm, rfl, rfl⟩ | ⟨fp, rest, hm, hcase2⟩
    · exact lobby_leave_empty hs hu hr hrd hm
    · rcases hcase2 with ⟨hh, rfl, rfl⟩ | ⟨p, hh, hp, rfl, rfl⟩
      · exact lobby_leave_base hs hu hr hrd hh hm
      · exact lobby_leave_host hs hu hr hrd hh hm hp

theorem leave_pid_room {s s' : ServerActor} {pid : IdType} {out : List Delivery}
    (h : leave_room_if_any s pid = some (s', out)) {u1 : UserData}
    (hu1 : alookup s'.players pid = some u1) : u1.room = none := by
  rcases leave_cases h with ⟨rfl, rfl, hc⟩ | ⟨u, rid, room, hu, hr, hrd, hcase⟩
  · rcases hc with hc | ⟨u, hu, hr⟩
    · rw [hc] at hu1
      exact Option.noConfusion hu1
    · rw [hu] at hu1
      obtain rfl := Option.some.inj hu1
      exact hr
  · have hlook : alookup s'.players pid =
        some { u with room := none, obj := { u.obj with is_host := false } } := by
      rcases hcase with ⟨hm, rfl, rfl⟩ | ⟨fp, rest, hm, hcase2⟩
      · simp [remove_room, leaveBase, alookup_aset_self]
      · rcases hcase2 with ⟨hh, rfl, rfl⟩ | ⟨p, hh, hp, rfl, rfl⟩
        · simp [leaveBase, alookup_aset_self]
        · have hfp_ne : fp ≠ pid := by
            have hfm : fp ∈ removeSet pid room.players := by
              rw [hm]
              exact List.mem_cons_self fp rest
            exact (mem_removeSet.1 hfm).2
          show alookup (aset (leaveBase s pid u rid room).players fp _) pid = _
          rw [alookup_aset_ne _ _ (Ne.symm hfp_ne)]
          simp [leaveBase, alookup_aset_self]
    rw [hlook] at hu1
    obtain rfl := Option.some.inj hu1
    rfl

theorem lobby_join_success {s1 : ServerActor} {pid rid : IdType} {room0 : RoomData}
    {u1 : UserData} (hs1 : LobbyInv s1) (hr0 : alookup s1.rooms rid = some room0)
    (hu1 : alookup s1.players pid = some u1) (hroom : u1.room = none) :
    LobbyInv (joinSetRoom (joinInsert s1 pid rid room0) pid rid u1) := by
  have hhost : u1.obj.is_host = false := hs1.noHostIdle pid u1 hu1 hroom
  have hgame : u1.in_game = false := hs1.noGame pid u1 hu1
  have hpid_notmem : ∀ r rd, alookup s1.rooms r = some rd → pid ∉ rd.players := by
    intro r rd hq hmem
    obtain ⟨u2, hu2, hru2⟩ := hs1.backlink r rd pid hq hmem
    rw [hu1] at hu2
    obtain rfl := Option.some.inj hu2
    rw [hroom] at hru2
    exact Option.noConfusion hru2
  have hJp_pid : alookup (joinSetRoom (joinInsert s1 pid rid room0) pid rid u1).players pid =
      some { u1 with room := some rid } := by
    simp [joinSetRoom, joinInsert, alookup_aset_self]
  have hJp_ne : ∀ q, q ≠ pid →
      alookup (joinSetRoom (joinInsert s1 pid rid room0) pid rid u1).players q =
        alookup s1.players q := by
    intro q hq
    simp [joinSetRoom, joinInsert, alookup_aset_ne _ _ hq]
  have hJr_rid : alookup (joinSetRoom (joinInsert s1 pid rid room0) pid rid u1).rooms rid =
      some { room0 with players := insertSet pid room0.players } := by
    simp [joinSetRoom, joinInsert, alookup_aset_self]
  have hJr_ne : ∀ r, r ≠ rid →
      alookup (joinSetRoom (joinInsert s1 pid rid room0) pid rid u1).rooms r =
        alookup s1.rooms r := by
    intro r hrr
    simp [joinSetRoom, joinInsert, alookup_aset_ne _ _ hrr]
  refine ⟨?_, ?_, ?_, ?_, ?_, ?_, ?_, ?_, ?_, ?_, ?_, ?_⟩
  · exact keys_aset_nodup hs1.pnodup _ _
  · exact keys_aset_nodup hs1.rnodup _ _
  · intro q u' hq
    by_cases hqp : q = pid
    · subst hqp
      rw [hJp_pid] at hq
      obtain rfl := Option.some.inj hq
      exact hgame
    · rw [hJp_ne q hqp] at hq
      exact hs1.noGame q u' hq
  · intro q u' hq hroomq
    by_cases hqp : q = pid
    · subst hqp
      rw [hJp_pid] at hq
      obtain rfl := Option.some.inj hq
      exact Option.noConfusion hroomq
    · rw [hJp_ne q hqp] at hq
      exact hs1.noHostIdle q u' hq hroomq
  · intro q u' r' hq hroomq
    by_cases hqp : q = pid
    · subst hqp
      rw [hJp_pid] at hq
      obtain rfl := Option.some.inj hq
      have hr' : r' = rid := (Option.some.inj hroomq).symm
      subst hr'
      exact ⟨_, hJr_rid, mem_insertSet.2 (Or.inr rfl)⟩
    · rw [hJp_ne q hqp] at hq
      obtain ⟨rd, hrd', hmem'⟩ := hs1.link q u' r' hq hroomq
      by_cases hrr : r' = rid
      · subst hrr
        rw [hr0] at hrd'
        obtain rfl := Option.some.inj hrd'
        exact ⟨_, hJr_rid, mem_insertSet.2 (Or.inl hmem')⟩
      · refine ⟨rd, ?_, hmem'⟩
        rw [hJr_ne r' hrr]
        exact hrd'
  · intro r rd hq
    by_cases hrr : r = rid
    · subst hrr
      rw [hJr_rid] at hq
      obtain rfl := Option.some.inj hq
      exact hs1.matchmaking _ room0 hr0
    · rw [hJr_ne r hrr] at hq
      exact hs1.matchmaking r rd hq
  · intro r rd hq
    by_cases hrr : r = rid
    · subst hrr
      rw [hJr_rid] at hq
      obtain rfl := Option.some.inj hq
      exact List.ne_nil_of_mem (mem_insertSet.2 (Or.inr rfl))
    · rw [hJr_ne r hrr] at hq
      exact hs1.nonemptyRoom r rd hq
  · intro r rd hq
    by_cases hrr : r = rid
    · subst hrr
      rw [hJr_rid] at hq
      obtain rfl := Option.some.inj hq
      exact insertSet_nodup (hs1.memNodup _ room0 hr0)
    · rw [hJr_ne r hrr] at hq
      exact hs1.memNodup r rd hq
  · intro r rd hq
    by_cases hrr : r = rid
    · subst hrr
      rw [hJr_rid] at hq
      obtain rfl := Option.some.inj hq
      exact hs1.countZero _ room0 hr0
    · rw [hJr_ne r hrr] at hq
      exact hs1.countZero r rd hq
  · intro r rd p' hq hpmem
    by_cases hrr : r = rid
    · subst hrr
      rw [hJr_rid] at hq
      obtain rfl := Option.some.inj hq
      rcases mem_insertSet.1 hpmem with hpm | rfl
      · have hppid : p' ≠ pid := by
          rintro rfl
          exact hpid_notmem _ room0 hr0 hpm
        obtain ⟨u2, hu2, hru2⟩ := hs1.backlink _ room0 p' hr0 hpm
        refine ⟨u2, ?_, hru2⟩
        rw [hJp_ne p' hppid]
        exact hu2
      · exact ⟨_, hJp_pid, rfl⟩
    · rw [hJr_ne r hrr] at hq
      obtain ⟨u2, hu2, hru2⟩ := hs1.backlink r rd p' hq hpmem
      have hppid : p' ≠ pid := by
        rintro rfl
        exact hpid_notmem r rd hq hpmem
      refine ⟨u2, ?_, hru2⟩
      rw [hJp_ne p' hppid]
      exact hu2
  · intro r rd hq
    by_cases hrr : r = rid
    · subst hrr
      rw [hJr_rid] at hq
      obtain rfl := Option.some.inj hq
      show hostCount (joinSetRoom (joinInsert s1 pid r room0) pid r u1).players
        (insertSet pid room0.players) = 1
      have hnotmem := hpid_notmem _ room0 hr0
      rw [show insertSet pid room0.players = room0.players ++ [pid] from
        insertSet_of_not_mem hnotmem]
      unfold hostCount
      rw [List.filter_append]
      have hpidfilter : [pid].filter
          (fun q => isHostP (joinSetRoom (joinInsert s1 pid r room0) pid r u1).players q) = [] := by
        simp [List.filter, isHostP, hJp_pid, hhost]
      rw [hpidfilter, List.append_nil]
      have hcongr : ∀ q ∈ room0.players,
          isHostP (joinSetRoom (joinInsert s1 pid r room0) pid r u1).players q =
            isHostP s1.players q := by
        intro q hqm
        have hqpid : q ≠ pid := by
          rintro rfl
          exact hnotmem hqm
        unfold isHostP
        rw [hJp_ne q hqpid]
      have h1 := hs1.oneHost _ room0 hr0
      unfold hostCount at h1
      calc (room0.players.filter
            (fun q => isHostP (joinSetRoom (joinInsert s1 pid r room0) pid r u1).players q)).length
          = (room0.players.filter (fun q => isHostP s1.players q)).length := by
            rw [List.filter_congr hcongr]
        _ = 1 := h1
    · rw [hJr_ne r hrr] at hq
      have h1 := hs1.oneHost r rd hq
      have hcongr : ∀ q ∈ rd.players,
          isHostP (joinSetRoom (joinInsert s1 pid rid room0) pid rid u1).players q =
            isHostP s1.players q := by
        intro q hqm
        have hqpid : q ≠ pid := by
          rintro rfl
          exact hpid_notmem r rd hq hqm
        unfold isHostP
        rw [hJp_ne q hqpid]
      rw [hostCount_congr hcongr]
      exact h1
  · intro r hrp
    by_cases hrr : r = rid
    · subst hrr
      rw [hJr_rid]
      rfl
    · rw [hJr_ne r hrr]
      exact hs1.poolOk r hrp

theorem join_room_cases {s : ServerActor} {pid rid : IdType} {b : Bool}
    {s' : ServerActor} {out : List Delivery}
    (h : join_room s pid rid = some (b, s', out)) :
    ∃ s1 out1 room0, leave_room_if_any s pid = some (s1, out1) ∧
      alookup s1.rooms rid = some room0 ∧
      ((b = false ∧ room0.state ≠ RoomState.Matchmaking ∧
        s' = joinInsert s1 pid rid room0 ∧ out = out1)
       ∨ (∃ u1, b = true ∧ room0.state = RoomState.Matchmaking ∧
           alookup s1.players pid = some u1 ∧
           s' = joinSetRoom (joinInsert s1 pid rid room0) pid rid u1 ∧
           out = out1 ++ broadcast_event_room
             (joinSetRoom (joinInsert s1 pid rid room0) pid rid u1).players
             { room0 with players := insertSet pid room0.players }
             (OutEvent.EventPlayerJoined u1.obj) none)) := by
  unfold join_room at h
  cases hl : leave_room_if_any s pid with
  | none =>
    rw [hl] at h
    exact Option.noConfusion h
  | some pr =>
    obtain ⟨s1, out1⟩ := pr
    simp only [hl] at h
    cases hr0 : alookup s1.rooms rid with
    | none =>
      simp only [hr0] at h
      exact Option.noConfusion h
    | some room0 =>
      simp only [hr0] at h
      have hlook : alookup (joinInsert s1 pid rid room0).rooms rid =
          some { room0 with players := insertSet pid room0.players } := by
        simp [joinInsert, alookup_aset_self]
      simp only [hlook] at h
      by_cases hst : room0.state = RoomState.Matchmaking
      · rw [if_neg (show ¬({ room0 with players := insertSet pid room0.players } :
            RoomData).state ≠ RoomState.Matchmaking by simp [hst])] at h
        cases hu1 : alookup (joinInsert s1 pid rid room0).players pid with
        | none =>
          simp only [hu1] at h
          exact Option.noConfusion h
        | some u1 =>
          simp only [hu1] at h
          simp only [Option.some.injEq, Prod.mk.injEq] at h
          obtain ⟨rfl, rfl, rfl⟩ := h
          have hu1' : alookup s1.players pid = some u1 := hu1
          exact ⟨s1, out1, room0, rfl, hr0, Or.inr ⟨u1, rfl, hst, hu1', rfl, rfl⟩⟩
      · rw [if_pos (show ({ room0 with players := insertSet pid room0.players } :
            RoomData).state ≠ RoomState.Matchmaking from hst)] at h
        simp only [Option.some.injEq, Prod.mk.injEq] at h
        obtain ⟨rfl, rfl, rfl⟩ := h
        exact ⟨s1, out1, room0, rfl, hr0, Or.inl ⟨rfl, hst, rfl, rfl⟩⟩

theorem join_room_preserves {s : ServerActor} {pid rid : IdType} {b : Bool}
    {s1 : ServerActor} {out : List Delivery} (hs : LobbyInv s)
    (h : join_room s pid rid = some (b, s1, out)) : LobbyInv s1 := by
  obtain ⟨sL, outL, room0, hl, hr0, hcase⟩ := join_room_cases h
  have hsL : LobbyInv sL := leave_preserves_lobbyInv hs hl
  rcases hcase with ⟨_, hst, rfl, _⟩ | ⟨u1, _, hst, hu1, rfl, _⟩
  · exact absurd (hsL.matchmaking rid room0 hr0) hst
  · exact lobby_join_success hsL hr0 hu1 (leave_pid_room hl hu1)

theorem joinHandler_preserves {s s' : ServerActor} {pid rid : IdType}
    {res : JoinRoomResult} {out : List Delivery} (hs : LobbyInv s)
    (h : joinRoomHandler s pid rid = some (res, s', out)) : LobbyInv s' := by
  unfold joinRoomHandler at h
  by_cases hex : (alookup s.rooms rid).isNone
  · rw [if_pos hex] at h
    simp only [Option.some.injEq, Prod.mk.injEq] at h
    obtain ⟨_, rfl, _⟩ := h
    exact hs
  · rw [if_neg hex] at h
    cases hjr : join_room s pid rid with
    | none =>
      rw [hjr] at h
      exact Option.noConfusion h
    | some tr =>
      obtain ⟨b, s1, out1⟩ := tr
      simp only [hjr] at h
      have hs1 := join_room_preserves hs hjr
      by_cases hb : b = false
      · rw [if_pos hb] at h
        simp only [Option.some.injEq, Prod.mk.injEq] at h
        obtain ⟨_, rfl, _⟩ := h
        exact hs1
      · rw [if_neg hb] at h
        cases hrm : alookup s1.rooms rid with
        | none =>
          simp only [hrm] at h
          exact Option.noConfusion h
        | some room =>
          simp only [hrm] at h
          cases hcp : collectPlayers s1 room.players with
          | none =>
            simp only [hcp] at h
            exact Option.noConfusion h
          | some users =>
            simp only [hcp] at h
            simp only [Option.some.injEq, Prod.mk.injEq] at h
            obtain ⟨_, rfl, _⟩ := h
            exact hs1

/-- The Join and Leave operations of the message surface. -/
def IsJoinLeave : Op → Prop
  | Op.joinRoom _ _ => True
  | Op.leaveRoom _ => True
  | _ => False

theorem stepOp_joinleave_preserves {s s' : ServerActor} {op : Op} {out : List Delivery}
    (hop : IsJoinLeave op) (hs : LobbyInv s) (h : stepOp s op = some (s', out)) :
    LobbyInv s' := by
  cases op with
  | joinRoom id rid =>
    simp only [stepOp] at h
    cases hjr : joinRoomHandler s id rid with
    | none =>
      rw [hjr] at h
      exact Option.noConfusion h
    | some tr =>
      obtain ⟨res, s2, out2⟩ := tr
      rw [hjr] at h
      simp only [Option.map_some'] at h
      simp only [Option.some.injEq, Prod.mk.injEq] at h
      obtain ⟨rfl, _⟩ := h
      exact joinHandler_preserves hs hjr
  | leaveRoom id =>
    simp only [stepOp] at h
    exact leave_preserves_lobbyInv hs h
  | register id addr obj => exact hop.elim
  | disconnect id => exact hop.elim
  | findRoom id => exact hop.elim
  | createRoom id => exact hop.elim
  | editCosmetics id cos => exact hop.elim
  | startRoom id ct => exact hop.elim
  | relay sid data => exact hop.elim
  | gameEnd id => exact hop.elim

theorem runOps_joinleave_preserves {ops : List Op} {s s' : ServerActor}
    (hops : ∀ op ∈ ops, IsJoinLeave op) (hs : LobbyInv s)
    (h : runOps ops s = some s') : LobbyInv s' := by
  induction ops generalizing s with
  | nil =>
    simp only [runOps, Option.some.injEq] at h
    rw [← h]
    exact hs
  | cons op rest ih =>
    simp only [runOps] at h
    cases hst : stepOp s op with
    | none =>
      rw [hst] at h
      exact Option.noConfusion h
    | some pr =>
      obtain ⟨s1, outp⟩ := pr
      rw [hst] at h
      exact ih (fun o ho => hops o (List.mem_cons_of_mem _ ho))
        (stepOp_joinleave_preserves (hops op (List.mem_cons_self _ _)) hs hst) h

def c1Rng : List IdType := [1, 2, 3, 10, 20]

/-- A concrete full-protocol prefix: three players register, player 1 opens a
public room (id 10) that player 2 joins, the room starts a match, and player 3
opens a second public room (id 20). -/
def c1Setup : List Op :=
  [Op.register none 1 ⟨"a", 0⟩, Op.register none 2 ⟨"b", 0⟩, Op.register none 3 ⟨"c", 0⟩,
   Op.findRoom 1, Op.joinRoom 2 10, Op.startRoom 1 0, Op.findRoom 3]

/-- The Join/Leave suffix that breaks invariant 3: the in-game player 1 leaves
the running match and joins the lobby room 20, whose `in_game_count` stays 0
although its new member is still flagged `in_game`. -/
def c1Bad : List Op := [Op.leaveRoom 1, Op.joinRoom 1 20]

/-- C1 (counterexample): from the reachable state produced by `c1Setup`
(which satisfies invariants 1 to 4), the two-operation Join/Leave sequence
`c1Bad` leads to a state violating the invariants — invariant 3 fails for
room 20, which has `in_game_count = 0` but one member flagged `in_game`.
This refutes the claim that invariants 1 to 4 hold after every Join/Leave
operation from every reachable state. -/
theorem joinleave_invariants_counterexample :
    (runOps c1Setup (initState c1Rng)).map inv14b = some true ∧
    (∀ op ∈ c1Bad, IsJoinLeave op) ∧
    (runOps (c1Setup ++ c1Bad) (initState c1Rng)).map inv14b = some false := by
  refine ⟨by decide, ?_, by decide⟩
  intro op hop
  rcases List.mem_cons.1 hop with rfl | hop
  · trivial
  · rcases List.mem_singleton.1 hop with rfl
    trivial

/-- C1 (amended): for every sequence of Join and Leave operations applied to
a lobby-well-formed coordinator state (invariants 1 to 4 together with:
every room member is registered and back-links to its room, every room is in
`Matchmaking` state with `in_game_count = 0`, no player is flagged `in_game`,
no roomless player is flagged as host, and registry keys and member sets are
duplicate-free), invariants 1 to 4 of the data model hold after the sequence;
since the sequence is arbitrary, they hold after each operation. -/
theorem joinleave_preserves_invariants (ops : List Op) (s s' : ServerActor)
    (hops : ∀ op ∈ ops, IsJoinLeave op) (hwf : lobbyWFb s = true)
    (hrun : runOps ops s = some s') : inv14b s' = true :=
  inv14_of_lobbyInv (runOps_joinleave_preserves hops (lobbyWFb_sound hwf) hrun)

def c1WitnessState : ServerActor :=
  { players := [(1, ⟨1, ⟨1, "a", 0, true⟩, some 10, false⟩),
                (2, ⟨2, ⟨2, "b", 0, false⟩, none, false⟩)],
    rooms := [(10, ⟨RoomState.Matchmaking, [1], 0⟩)],
    available_rooms := [10], rng := [] }

def c1WitnessFinal : ServerActor :=
  { players := [(1, ⟨1, ⟨1, "a", 0, true⟩, some 10, false⟩),
                (2, ⟨2, ⟨2, "b", 0, false⟩, some 10, false⟩)],
    rooms := [(10, ⟨RoomState.Matchmaking, [1, 2], 0⟩)],
    available_rooms := [10], rng := [] }

/-- C1 (witness): the amended theorem applied to a concrete lobby state and
a concrete one-element Join sequence. -/
theorem joinleave_preserves_invariants_witness :
    (∀ op ∈ [Op.joinRoom 2 10], IsJoinLeave op) ∧
    lobbyWFb c1WitnessState = true ∧
    runOps [Op.joinRoom 2 10] c1WitnessState = some c1WitnessFinal ∧
    inv14b c1WitnessFinal = true := by
  refine ⟨?_, by decide, by decide, ?_⟩
  · intro op hop
    rcases List.mem_singleton.1 hop with rfl
    trivial
  · exact joinleave_preserves_invariants [Op.joinRoom 2 10] c1WitnessState c1WitnessFinal
      (by
        intro op hop
        rcases List.mem_singleton.1 hop with rfl
        trivial)
      (by decide) (by decide)

theorem drawFresh_spec {used : IdType → Bool} {rng rng' : List IdType} {id : IdType}
    (h : drawFresh used rng = some (id, rng')) : used id = false := by
  induction rng with
  | nil => exact Option.noConfusion h
  | cons x xs ih =>
    unfold drawFresh at h
    by_cases hx : used x = true
    · rw [if_pos hx] at h
      exact ih h
    · rw [if_neg hx] at h
      simp only [Option.some.injEq, Prod.mk.injEq] at h
      obtain ⟨rfl, rfl⟩ := h
      cases hb : used x
      · rfl
      · exact absurd hb hx

/-- C2 (counterexample): a `RegisterSession` call supplying an id that is not
present in the Player Registry faults (the code runs
`self.players.get_mut(&id).expect("Invalid player")`) instead of allocating a
new player — even though a fresh id (7) is available in the rng supply.  The
claim states such a call allocates and returns a fresh id. -/
theorem register_unknown_id_counterexample :
    registerHandler (initState [7]) (some 5) 0 ⟨"u", 1⟩ = none := by decide

/-- C2 (amended): a `RegisterSession` call with no supplied id allocates a new
player initialized with `is_host = false`, `in_game = false`, `room = None`
and the login profile, stores it under a freshly drawn id that was not
previously registered, returns that id, and changes nothing else; a call
supplying an id unknown to the Player Registry faults instead of
allocating. -/
theorem register_fresh_allocation :
    (∀ s addr obj pid s' out, registerHandler s none addr obj = some (pid, s', out) →
      alookup s.players pid = none ∧
      alookup s'.players pid = some ⟨addr, ⟨pid, obj.username, obj.cosmetics, false⟩, none, false⟩ ∧
      s'.rooms = s.rooms ∧ s'.available_rooms = s.available_rooms ∧ out = []) ∧
    (∀ s addr obj pid, alookup s.players pid = none →
      registerHandler s (some pid) addr obj = none) := by
  constructor
  · intro s addr obj pid s' out h
    unfold registerHandler allocate_player_id at h
    cases hd : drawFresh (fun id => (alookup s.players id).isSome) s.rng with
    | none =>
      simp only [hd] at h
      exact Option.noConfusion h
    | some pr =>
      obtain ⟨id, rng'⟩ := pr
      simp only [hd] at h
      simp only [Option.some.injEq, Prod.mk.injEq] at h
      obtain ⟨rfl, rfl, rfl⟩ := h
      have hfresh := drawFresh_spec hd
      refine ⟨?_, ?_, rfl, rfl, rfl⟩
      · cases halo : alookup s.players id
        · rfl
        · rw [halo] at hfresh
          exact Bool.noConfusion hfresh
      · exact alookup_aset_self _ _ _
  · intro s addr obj pid h
    simp [registerHandler, h]

def c2Final : ServerActor := ⟨[(5, ⟨7, ⟨5, "u", 1, false⟩, none, false⟩)], [], [], []⟩

/-- C2 (witness): the amended theorem applied at concrete inputs — an id-less
registration against the empty state with rng supply `[5]`, and a
registration supplying the unknown id 9. -/
theorem register_fresh_allocation_witness :
    (alookup (initState [5]).players 5 = none ∧
     alookup c2Final.players 5 = some ⟨7, ⟨5, "u", 1, false⟩, none, false⟩ ∧
     c2Final.rooms = (initState [5]).rooms ∧
     c2Final.available_rooms = (initState [5]).available_rooms ∧
     ([] : List Delivery) = []) ∧
    registerHandler (initState [5]) (some 9) 0 ⟨"u", 1⟩ = none :=
  ⟨register_fresh_allocation.1 (initState [5]) 7 ⟨"u", 1⟩ 5 c2Final [] (by decide),
   register_fresh_allocation.2 (initState [5]) 0 ⟨"u", 1⟩ 9 (by decide)⟩

theorem collectPlayers_isSome {s : ServerActor} {members : List IdType}
    (h : ∀ p ∈ members, (alookup s.players p).isSome = true) :
    ∃ users, collectPlayers s members = some users := by
  induction members with
  | nil => exact ⟨[], rfl⟩
  | cons x rest ih =>
    have hx := h x (List.mem_cons_self x rest)
    cases halo : alookup s.players x with
    | none =>
      rw [halo] at hx
      exact Bool.noConfusion hx
    | some u =>
      obtain ⟨users, husers⟩ := ih (fun p hp => h p (List.mem_cons_of_mem _ hp))
      exact ⟨u.obj :: users, by simp [collectPlayers, halo, husers]⟩

/-- C5: for every `StartRoom` call whose caller is in an existing room, when
the start is rejected — the room is not in `Matchmaking` state or has fewer
than two members — the handler still removes the room from the Matchmaking
Pool, and does nothing else: the registries are untouched (so the room state
and every member `in_game` flag are unchanged) and no event is sent. -/
theorem startRoom_pool_retired_on_reject (s : ServerActor) (pid ct rid : IdType)
    (u : UserData) (r : RoomData) (hu : alookup s.players pid = some u)
    (hroom : u.room = some rid) (hr : alookup s.rooms rid = some r)
    (hrej : r.state ≠ RoomState.Matchmaking ∨ r.players.length < 2) :
    startRoomHandler s pid ct =
      some ({ s with available_rooms := removeSet rid s.available_rooms }, []) := by
  unfold startRoomHandler
  simp only [hu, Option.some_bind, hroom, hr]
  rw [if_pos hrej]

def c5State : ServerActor :=
  { players := [(1, ⟨1, ⟨1, "a", 0, true⟩, some 10, false⟩)],
    rooms := [(10, ⟨RoomState.Matchmaking, [1], 0⟩)],
    available_rooms := [10], rng := [] }

/-- C5 (witness): the theorem applied to a one-member room in the pool. -/
theorem startRoom_pool_retired_on_reject_witness :
    (alookup c5State.players 1 = some ⟨1, ⟨1, "a", 0, true⟩, some 10, false⟩ ∧
     (⟨1, ⟨1, "a", 0, true⟩, some 10, false⟩ : UserData).room = some 10 ∧
     alookup c5State.rooms 10 = some ⟨RoomState.Matchmaking, [1], 0⟩ ∧
     (⟨RoomState.Matchmaking, [1], 0⟩ : RoomData).players.length < 2) ∧
    startRoomHandler c5State 1 0 =
      some ({ c5State with available_rooms := removeSet 10 c5State.available_rooms }, []) :=
  ⟨⟨by decide, by decide, by decide, by decide⟩,
   startRoom_pool_retired_on_reject c5State 1 0 10 ⟨1, ⟨1, "a", 0, true⟩, some 10, false⟩
     ⟨RoomState.Matchmaking, [1], 0⟩ (by decide) (by decide) (by decide)
     (Or.inr (by decide))⟩

/-- C7: for every `GameEndRequest` by a registered caller: if the caller has
no (existing) room or is not flagged `in_game`, the call returns no
acknowledgment and changes nothing; otherwise the room state reverts to
`Matchmaking`, the caller `in_game` flag clears, the room `in_game_count`
drops by exactly one, the caller receives the current member-profile list,
and the Matchmaking Pool is unchanged (the room is not re-inserted). -/
theorem gameEnd_behavior (s : ServerActor) (pid : IdType) (u : UserData)
    (hu : alookup s.players pid = some u) :
    ((u.room.bind (fun x => alookup s.rooms x) = none ∨ u.in_game = false) →
      gameEndHandler s pid = some (none, s, [])) ∧
    (∀ rid r, u.room = some rid → alookup s.rooms rid = some r → u.in_game = true →
      1 ≤ r.in_game_count →
      (∀ p ∈ r.players, p ≠ pid → (alookup s.players p).isSome = true) →
      ∃ users s1,
        gameEndHandler s pid = some (some users, s1, []) ∧
        alookup s1.rooms rid = some ⟨RoomState.Matchmaking, r.players, r.in_game_count - 1⟩ ∧
        r.in_game_count - 1 + 1 = r.in_game_count ∧
        alookup s1.players pid = some { u with in_game := false } ∧
        s1.available_rooms = s.available_rooms ∧
        collectPlayers s1 r.players = some users) := by
  constructor
  · intro hcase
    unfold gameEndHandler
    simp only [hu]
    rcases hcase with hnone | hgame
    · have hred : u.room.bind
          (fun x => (alookup s.rooms x).map (fun r => (x, r))) = none := by
        cases hroom : u.room with
        | none => rfl
        | some rid =>
          rw [hroom] at hnone
          simp only [Option.some_bind] at hnone ⊢
          rw [hnone]
          rfl
      rw [hred]
    · cases hred : u.room.bind
          (fun x => (alookup s.rooms x).map (fun r => (x, r))) with
      | none => rfl
      | some pr =>
        obtain ⟨rid, r⟩ := pr
        simp [hgame]
  · intro rid r hroom hr hgame hcount hreg
    have hregs1 : ∀ p ∈ r.players,
        (alookup (aset s.players pid { u with in_game := false }) p).isSome = true := by
      intro p hp
      by_cases hpp : p = pid
      · subst hpp
        rw [alookup_aset_self]
        rfl
      · rw [alookup_aset_ne _ _ hpp]
        exact hreg p hp hpp
    obtain ⟨users, husers⟩ := collectPlayers_isSome
      (s := { s with
        rooms := (aset s.rooms rid
          { r with state := RoomState.Matchmaking, in_game_count := r.in_game_count - 1 }),
        players := aset s.players pid { u with in_game := false } }) hregs1
    refine ⟨users, { s with
        rooms := (aset s.rooms rid
          { r with state := RoomState.Matchmaking, in_game_count := r.in_game_count - 1 }),
        players := aset s.players pid { u with in_game := false } },
      ?_, ?_, ?_, ?_, rfl, husers⟩
    · unfold gameEndHandler
      simp only [hu, hroom, Option.some_bind, hr, Option.map_some', hgame]
      simp only [alookup_aset_self]
      rw [hroom] at husers
      simp [husers]
    · rw [alookup_aset_self]
    · omega
    · rw [alookup_aset_self]

def c7State : ServerActor :=
  { players := [(1, ⟨1, ⟨1, "a", 0, true⟩, some 10, true⟩),
                (2, ⟨2, ⟨2, "b", 0, false⟩, some 10, true⟩)],
    rooms := [(10, ⟨RoomState.Playing, [1, 2], 2⟩)],
    available_rooms := [], rng := [] }

/-- C7 (witness): the theorem applied to a two-member `Playing` room whose
host ends the match. -/
theorem gameEnd_behavior_witness :
    ∃ users s1, gameEndHandler c7State 1 = some (some users, s1, []) ∧
      alookup s1.rooms 10 = some ⟨RoomState.Matchmaking, [1, 2], 1⟩ ∧
      2 - 1 + 1 = 2 ∧
      alookup s1.players 1 = some ⟨1, ⟨1, "a", 0, true⟩, some 10, false⟩ ∧
      s1.available_rooms = c7State.available_rooms ∧
      collectPlayers s1 [1, 2] = some users :=
  (gameEnd_behavior c7State 1 ⟨1, ⟨1, "a", 0, true⟩, some 10, true⟩ (by decide)).2
    10 ⟨RoomState.Playing, [1, 2], 2⟩ (by decide) (by decide) (by decide) (by decide)
    (by decide)

theorem aset_state_lookup {rooms : List (IdType × RoomData)} {rid rid0 : IdType}
    {room roomL : RoomData} (hst : roomL.state = room.state)
    (hrd : alookup rooms rid0 = some room) {r' : RoomData}
    (hlook : alookup (aset rooms rid0 roomL) rid = some r') :
    ∃ r0, alookup rooms rid = some r0 ∧ r'.state = r0.state := by
  by_cases hrr : rid = rid0
  · subst hrr
    rw [alookup_aset_self] at hlook
    obtain rfl := Option.some.inj hlook
    exact ⟨room, hrd, hst⟩
  · rw [alookup_aset_ne _ _ hrr] at hlook
    exact ⟨r', hlook, rfl⟩

/-- Rooms surviving a departure keep their lifecycle state. -/
theorem leave_room_state {s s' : ServerActor} {pid : IdType} {out : List Delivery}
    (hnod : (s.rooms.map Prod.fst).Nodup)
    (h : leave_room_if_any s pid = some (s', out)) :
    ∀ rid r', alookup s'.rooms rid = some r' →
      ∃ r0, alookup s.rooms rid = some r0 ∧ r'.state = r0.state := by
  intro rid r' hlook
  rcases leave_cases h with ⟨rfl, rfl, _⟩ | ⟨u, rid0, room, hu, hr, hrd, hcase⟩
  · exact ⟨r', hlook, rfl⟩
  · rcases hcase with ⟨hm, rfl, rfl⟩ | ⟨fp, rest, hm, hcase2⟩
    · by_cases hrr : rid = rid0
      · subst hrr
        have hnone : alookup (remove_room (leaveBase s pid u rid room) rid).rooms rid = none := by
          show alookup (aerase (leaveBase s pid u rid room).rooms rid) rid = none
          exact alookup_aerase_self (keys_aset_nodup hnod _ _) rid
        rw [hnone] at hlook
        exact Option.noConfusion hlook
      · have heq : alookup (remove_room (leaveBase s pid u rid0 room) rid0).rooms rid =
            alookup s.rooms rid := by
          show alookup (aerase (leaveBase s pid u rid0 room).rooms rid0) rid = _
          rw [alookup_aerase_ne _ hrr]
          show alookup (aset s.rooms rid0 _) rid = _
          rw [alookup_aset_ne _ _ hrr]
        rw [heq] at hlook
        exact ⟨r', hlook, rfl⟩
    · rcases hcase2 with ⟨hh, rfl, rfl⟩ | ⟨p, hh, hp, rfl, rfl⟩
      · refine aset_state_lookup ?_ hrd hlook
        rfl
      · refine aset_state_lookup ?_ hrd hlook
        rfl

def c3Setup : List Op :=
  [Op.register none 1 ⟨"a", 0⟩, Op.register none 2 ⟨"b", 0⟩, Op.createRoom 1,
   Op.joinRoom 2 10, Op.startRoom 1 0, Op.leaveRoom 2]

/-- C3 (counterexample): after the trace `c3Setup` (two players register,
player 1 creates room 10, player 2 joins, the room starts, player 2
leaves), player 1 is the sole member of room 10, which exists in state
`Playing`.  `JoinRoom(1, 10)` then faults instead of returning
`AlreadyPlaying`: `join_room` first runs the departure procedure, which
destroys the now-empty room, and the following
`self.rooms.get_mut(&room_id).unwrap()` panics.  This refutes the claim
that every `JoinRoom` naming an existing non-`Matchmaking` room returns
`AlreadyPlaying`. -/
theorem joinRoom_playing_counterexample :
    (runOps c3Setup (initState [1, 2, 10])).map
      (fun s => ((alookup s.rooms 10).map (fun r => r.state), joinRoomHandler s 1 10)) =
    some (some RoomState.Playing, none) := by decide

/-- C3 (amended): for every `JoinRoom` call naming an existing room whose
state is not `Matchmaking`, if the call completes without an internal fault,
the result is `AlreadyPlaying` and at return the caller id has been inserted
into that room's member set. -/
theorem joinRoom_already_playing (s : ServerActor) (pid rid : IdType) (r : RoomData)
    (hnod : (s.rooms.map Prod.fst).Nodup)
    (hr : alookup s.rooms rid = some r) (hst : r.state ≠ RoomState.Matchmaking)
    (res : JoinRoomResult) (s' : ServerActor) (out : List Delivery)
    (h : joinRoomHandler s pid rid = some (res, s', out)) :
    res = JoinRoomResult.AlreadyPlaying ∧
    ∃ r', alookup s'.rooms rid = some r' ∧ pid ∈ r'.players := by
  unfold joinRoomHandler at h
  rw [if_neg (by simp [hr])] at h
  cases hjr : join_room s pid rid with
  | none =>
    rw [hjr] at h
    exact Option.noConfusion h
  | some tr =>
    obtain ⟨b, s1, out1⟩ := tr
    simp only [hjr] at h
    obtain ⟨sL, outL, room0, hl, hr0, hcase⟩ := join_room_cases hjr
    obtain ⟨r0, hr0', hstate⟩ := leave_room_state hnod hl rid room0 hr0
    rw [hr] at hr0'
    obtain rfl := Option.some.inj hr0'
    rcases hcase with ⟨hb, hst0, rfl, rfl⟩ | ⟨u1, hb, hst0, hu1, rfl, rfl⟩
    · subst hb
      rw [if_pos rfl] at h
      simp only [Option.some.injEq, Prod.mk.injEq] at h
      obtain ⟨hres, hs', houtx⟩ := h
      subst hs'
      refine ⟨hres.symm, ?_⟩
      refine ⟨{ room0 with players := insertSet pid room0.players }, ?_, ?_⟩
      · exact alookup_aset_self _ _ _
      · exact mem_insertSet.2 (Or.inr rfl)
    · rw [hstate] at hst0
      exact absurd hst0 hst

def c3WitState : ServerActor :=
  { players := [(1, ⟨1, ⟨1, "a", 0, true⟩, some 10, true⟩),
                (2, ⟨2, ⟨2, "b", 0, false⟩, some 10, true⟩),
                (3, ⟨3, ⟨3, "c", 0, false⟩, none, false⟩)],
    rooms := [(10, ⟨RoomState.Playing, [1, 2], 2⟩)],
    available_rooms := [], rng := [] }

def c3WitFinal : ServerActor :=
  { players := c3WitState.players,
    rooms := [(10, ⟨RoomState.Playing, [1, 2, 3], 2⟩)],
    available_rooms := [], rng := [] }

/-- C3 (witness): the amended theorem applied to a roomless player joining a
two-member `Playing` room. -/
theorem joinRoom_already_playing_witness :
    ((c3WitState.rooms.map Prod.fst).Nodup ∧
     alookup c3WitState.rooms 10 = some ⟨RoomState.Playing, [1, 2], 2⟩ ∧
     (⟨RoomState.Playing, [1, 2], 2⟩ : RoomData).state ≠ RoomState.Matchmaking ∧
     joinRoomHandler c3WitState 3 10 = some (JoinRoomResult.AlreadyPlaying, c3WitFinal, [])) ∧
    (JoinRoomResult.AlreadyPlaying = JoinRoomResult.AlreadyPlaying ∧
     ∃ r', alookup c3WitFinal.rooms 10 = some r' ∧ 3 ∈ r'.players) :=
  ⟨⟨by decide, by decide, by decide, by decide⟩,
   joinRoom_already_playing c3WitState 3 10 ⟨RoomState.Playing, [1, 2], 2⟩ (by decide)
     (by decide) (by decide) JoinRoomResult.AlreadyPlaying c3WitFinal [] (by decide)⟩

def c9Setup : List Op := [Op.register none 1 ⟨"a", 0⟩, Op.findRoom 1]

/-- C9 (counterexample): after `c9Setup` player 1 is registered and is the
sole member (and host) of the public room 10 sitting in the Matchmaking
Pool.  A second `FindRoom` by player 1 settles on that room, and
`join_room` first makes the caller leave it — destroying the now-empty room
— so the following `self.rooms.get_mut(&room_id).unwrap()` panics: the call
produces no result at all, refuting the claim that every `FindRoom` by a
registered player returns `Success`. -/
theorem findRoom_fault_counterexample :
    (runOps c9Setup (initState [1, 10])).map
      (fun s => (regP s.players 1, findRoomHandler s 1)) = some (true, none) := by decide

/-- C9 (amended): every `FindRoom` call that completes without an internal
fault returns the `Success` variant (with a room id, a member profile list
and the created flag); the `GameIsFull` variant is never returned. -/
theorem findRoom_result_success (s : ServerActor) (id : IdType) (res : FindRoomResult)
    (s' : ServerActor) (out : List Delivery)
    (h : findRoomHandler s id = some (res, s', out)) :
    ∃ rid players jc, res = FindRoomResult.Success rid players jc := by
  unfold findRoomHandler at h
  cases hf : find_available_room_for s id (fun _ _ => true) (-1) with
  | none =>
    rw [hf] at h
    exact Option.noConfusion h
  | some pr =>
    obtain ⟨found, s1⟩ := pr
    simp only [hf] at h
    cases found with
    | some room_id =>
      cases hj : join_room s1 id room_id with
      | none =>
        simp only [hj] at h
        exact Option.noConfusion h
      | some tr =>
        obtain ⟨b, s2, outj⟩ := tr
        simp only [hj] at h
        cases hroom : alookup s2.rooms room_id with
        | none =>
          simp only [hroom] at h
          exact Option.noConfusion h
        | some room =>
          simp only [hroom] at h
          cases hc : collectPlayers s2 room.players with
          | none =>
            simp only [hc] at h
            exact Option.noConfusion h
          | some players =>
            simp only [hc, Option.some.injEq, Prod.mk.injEq] at h
            obtain ⟨hres, _, _⟩ := h
            exact ⟨room_id, players, false, hres.symm⟩
    | none =>
      cases hcr : create_room s1 id true with
      | none =>
        simp only [hcr] at h
        exact Option.noConfusion h
      | some pr2 =>
        obtain ⟨room_id, s2⟩ := pr2
        simp only [hcr] at h
        cases hroom : alookup s2.rooms room_id with
        | none =>
          simp only [hroom] at h
          exact Option.noConfusion h
        | some room =>
          simp only [hroom] at h
          cases hc : collectPlayers s2 room.players with
          | none =>
            simp only [hc] at h
            exact Option.noConfusion h
          | some players =>
            simp only [hc, Option.some.injEq, Prod.mk.injEq] at h
            obtain ⟨hres, _, _⟩ := h
            exact ⟨room_id, players, true, hres.symm⟩

def c9WitState : ServerActor :=
  { players := [(1, ⟨1, ⟨1, "a", 0, false⟩, none, false⟩)], rooms := [],
    available_rooms := [], rng := [10] }

def c9WitFinal : ServerActor :=
  { players := [(1, ⟨1, ⟨1, "a", 0, true⟩, some 10, false⟩)],
    rooms := [(10, ⟨RoomState.Matchmaking, [1], 0⟩)],
    available_rooms := [10], rng := [] }

/-- C9 (witness): the amended theorem applied to a completing `FindRoom`
call that creates a new public room. -/
theorem findRoom_result_success_witness :
    findRoomHandler c9WitState 1 =
      some (FindRoomResult.Success 10 [⟨1, "a", 0, true⟩] true, c9WitFinal, []) ∧
    ∃ rid players jc,
      FindRoomResult.Success 10 [(⟨1, "a", 0, true⟩ : PlayerObject)] true =
        FindRoomResult.Success rid players jc :=
  ⟨by decide,
   findRoom_result_success c9WitState 1 (FindRoomResult.Success 10 [⟨1, "a", 0, true⟩] true)
     c9WitFinal [] (by decide)⟩

/-- Does the scanning predicate accept this pool entry (false when the pool
id does not resolve in the room registry). -/
def poolHit (rooms : List (IdType × RoomData)) (find_if : IdType → RoomData → Bool)
    (rid : IdType) : Bool :=
  match alookup rooms rid with
  | some rd => find_if rid rd
  | none => false

theorem scan_available_last (rooms : List (IdType × RoomData))
    (find_if : IdType → RoomData → Bool) (pool : List IdType) (iter : Int)
    (acc : Option IdType) (h : ∀ r ∈ pool, (alookup rooms r).isSome = true) :
    scan_available rooms find_if (-1) pool iter acc =
      some (match (pool.filter (poolHit rooms find_if)).getLast? with
            | some r => some r
            | none => acc) := by
  induction pool generalizing iter acc with
  | nil => rfl
  | cons rid rest ih =>
    have hr := h rid (List.mem_cons_self rid rest)
    cases halo : alookup rooms rid with
    | none =>
      rw [halo] at hr
      exact Bool.noConfusion hr
    | some rd =>
      unfold scan_available
      rw [if_neg (by rintro ⟨h1, _⟩; omega)]
      simp only [halo]
      rw [ih _ _ (fun r hrm => h r (List.mem_cons_of_mem _ hrm))]
      cases hif : find_if rid rd with
      | false =>
        rw [if_neg (fun hcon => Bool.noConfusion hcon)]
        have hhit2 : poolHit rooms find_if rid = false := by
          unfold poolHit
          rw [halo]
          exact hif
        have hfeq : List.filter (poolHit rooms find_if) (rid :: rest) =
            List.filter (poolHit rooms find_if) rest :=
          List.filter_cons_of_neg (by rw [hhit2]; exact fun hcon => Bool.noConfusion hcon)
        rw [hfeq]
      | true =>
        rw [if_pos rfl]
        have hhit2 : poolHit rooms find_if rid = true := by
          unfold poolHit
          rw [halo]
          exact hif
        have hfc : List.filter (poolHit rooms find_if) (rid :: rest) =
            rid :: List.filter (poolHit rooms find_if) rest :=
          List.filter_cons_of_pos hhit2
        rw [hfc]
        cases hrest : List.filter (poolHit rooms find_if) rest with
        | nil => rfl
        | cons x xs =>
          rw [List.getLast?_cons_cons]
          cases hgl : (x :: xs).getLast? with
          | none =>
            rw [List.getLast?_eq_none_iff] at hgl
            exact absurd hgl (List.cons_ne_nil x xs)
          | some y => rfl

theorem create_room_spec {s : ServerActor} {host_id : IdType} {pub : Bool} {rid : IdType}
    {s' : ServerActor} (h : create_room s host_id pub = some (rid, s')) :
    ∃ host, alookup s.players host_id = some host ∧
      alookup s.rooms rid = none ∧
      alookup s'.rooms rid = some ⟨RoomState.Matchmaking, [host_id], 0⟩ ∧
      alookup s'.players host_id =
        some { host with obj := { host.obj with is_host := true }, room := some rid } ∧
      s'.available_rooms =
        (if pub then insertSet rid s.available_rooms else s.available_rooms) := by
  unfold create_room at h
  cases hd : drawFresh (fun id => (alookup s.rooms id).isSome) s.rng with
  | none =>
    simp only [hd] at h
    exact Option.noConfusion h
  | some pr =>
    obtain ⟨id, rng'⟩ := pr
    simp only [hd] at h
    cases hhost : alookup s.players host_id with
    | none =>
      simp only [hhost] at h
      exact Option.noConfusion h
    | some host =>
      simp only [hhost] at h
      simp only [Option.some.injEq, Prod.mk.injEq] at h
      obtain ⟨rfl, rfl⟩ := h
      refine ⟨host, rfl, ?_, ?_, ?_, ?_⟩
      · have hfresh := drawFresh_spec hd
        cases halo : alookup s.rooms id
        · rfl
        · rw [halo] at hfresh
          exact Bool.noConfusion hfresh
      · cases pub
        · exact alookup_aset_self _ _ _
        · exact alookup_aset_self _ _ _
      · cases pub
        · exact alookup_aset_self _ _ _
        · exact alookup_aset_self _ _ _
      · cases pub
        · rfl
        · rfl

def c4State : ServerActor :=
  { players := [(1, ⟨1, ⟨1, "a", 0, true⟩, some 10, false⟩),
                (2, ⟨2, ⟨2, "b", 0, true⟩, some 20, false⟩),
                (3, ⟨3, ⟨3, "c", 0, false⟩, none, false⟩)],
    rooms := [(10, ⟨RoomState.Matchmaking, [1], 0⟩), (20, ⟨RoomState.Matchmaking, [2], 0⟩)],
    available_rooms := [10, 20], rng := [] }

/-- C4 (counterexample): with two acceptable Matchmaking rooms 10 and 20 in
the pool, in that iteration order, the scan of `find_available_room_for`
(run with the always-accept predicate and no iteration bound, exactly as the
`FindRoom` handler runs it) settles on room 20 — the last acceptable room in
iteration order, having scanned the whole pool — and not on the first
acceptable room 10, refuting the claim that the first satisfying room is
returned and that scanning stops there. -/
theorem findRoom_scan_counterexample :
    c4State.available_rooms = [10, 20] ∧
    (find_available_room_for c4State 3 (fun _ _ => true) (-1)).map Prod.fst =
      some (some 20) := by decide

/-- C4 (amended): the pool scan run by `FindRoom` (always-accept predicate,
no iteration bound) scans the entire pool and settles on the LAST room
satisfying the acceptance predicate in the pool's iteration order (faulting
only if a pool id does not resolve); if the scan finds no candidate, a new
public room is created with the caller as sole member and host and is
inserted into the Matchmaking Pool, and the result's created flag is true;
if the scan finds a candidate, the created flag is false. -/
theorem findRoom_scan_amended :
    (∀ s pid (find_if : IdType → RoomData → Bool),
      (∀ r ∈ s.available_rooms, (alookup s.rooms r).isSome = true) →
      (find_available_room_for s pid find_if (-1)).map Prod.fst =
        some ((s.available_rooms.filter (poolHit s.rooms find_if)).getLast?)) ∧
    (∀ s id res s' out,
      find_available_room_for s id (fun _ _ => true) (-1) = some (none, s) →
      findRoomHandler s id = some (res, s', out) →
      ∃ rid host players, res = FindRoomResult.Success rid players true ∧
        alookup s.players id = some host ∧
        alookup s'.rooms rid = some ⟨RoomState.Matchmaking, [id], 0⟩ ∧
        alookup s'.players id =
          some { host with obj := { host.obj with is_host := true }, room := some rid } ∧
        s'.available_rooms = insertSet rid s.available_rooms) ∧
    (∀ s id rid0 s1 res s' out,
      find_available_room_for s id (fun _ _ => true) (-1) = some (some rid0, s1) →
      findRoomHandler s id = some (res, s', out) →
      ∃ players, res = FindRoomResult.Success rid0 players false) := by
  refine ⟨?_, ?_, ?_⟩
  · intro s pid find_if h
    unfold find_available_room_for
    rw [scan_available_last s.rooms find_if s.available_rooms 0 none h]
    cases hgl : (s.available_rooms.filter (poolHit s.rooms find_if)).getLast? with
    | none => simp [hgl]
    | some rid =>
      have hmem0 : rid ∈ (s.available_rooms.filter (poolHit s.rooms find_if)).getLast? := by
        rw [Option.mem_def]
        exact hgl
      obtain ⟨hne, heq⟩ := List.mem_getLast?_eq_getLast hmem0
      have hmem : rid ∈ s.available_rooms.filter (poolHit s.rooms find_if) := by
        rw [heq]
        exact List.getLast_mem hne
      have hpool : rid ∈ s.available_rooms := (List.mem_filter.1 hmem).1
      have hsome := h rid hpool
      cases halo : alookup s.rooms rid with
      | none =>
        rw [halo] at hsome
        exact Bool.noConfusion hsome
      | some rd => simp [hgl, halo]
  · intro s id res s' out hscan h
    unfold findRoomHandler at h
    simp only [hscan] at h
    cases hcr : create_room s id true with
    | none =>
      simp only [hcr] at h
      exact Option.noConfusion h
    | some pr2 =>
      obtain ⟨rid2, s2⟩ := pr2
      simp only [hcr] at h
      obtain ⟨host, hhost, hfresh, hrooms, hplayers, hpool⟩ := create_room_spec hcr
      simp only [hrooms] at h
      have hcol : collectPlayers s2 [id] = some [{ host.obj with is_host := true }] := by
        simp [collectPlayers, hplayers]
      simp only [hcol] at h
      simp only [Option.some.injEq, Prod.mk.injEq] at h
      obtain ⟨hres, hs', houtx⟩ := h
      subst hs'
      refine ⟨rid2, host, [{ host.obj with is_host := true }], hres.symm, hhost, hrooms,
        hplayers, ?_⟩
      simpa using hpool
  · intro s id rid0 s1 res s' out hscan h
    unfold findRoomHandler at h
    simp only [hscan] at h
    cases hj : join_room s1 id rid0 with
    | none =>
      simp only [hj] at h
      exact Option.noConfusion h
    | some tr =>
      obtain ⟨b, s2, outj⟩ := tr
      simp only [hj] at h
      cases hroom : alookup s2.rooms rid0 with
      | none =>
        simp only [hroom] at h
        exact Option.noConfusion h
      | some room =>
        simp only [hroom] at h
        cases hc : collectPlayers s2 room.players with
        | none =>
          simp only [hc] at h
          exact Option.noConfusion h
        | some players =>
          simp only [hc, Option.some.injEq, Prod.mk.injEq] at h
          obtain ⟨hres, _, _⟩ := h
          exact ⟨players, hres.symm⟩

def c4CreateState : ServerActor :=
  { players := [(1, ⟨1, ⟨1, "a", 0, false⟩, none, false⟩)], rooms := [],
    available_rooms := [], rng := [30] }

def c4JoinState : ServerActor :=
  { players := [(1, ⟨1, ⟨1, "a", 0, true⟩, some 10, false⟩),
                (2, ⟨2, ⟨2, "b", 0, false⟩, none, false⟩)],
    rooms := [(10, ⟨RoomState.Matchmaking, [1], 0⟩)],
    available_rooms := [10], rng := [] }

def c4JoinMid : ServerActor :=
  { players := [(1, ⟨1, ⟨1, "a", 0, true⟩, some 10, false⟩),
                (2, ⟨2, ⟨2, "b", 0, false⟩, none, false⟩)],
    rooms := [(10, ⟨RoomState.Matchmaking, [1, 2], 0⟩)],
    available_rooms := [10], rng := [] }

def c4CreateFinal : ServerActor :=
  { players := [(1, ⟨1, ⟨1, "a", 0, true⟩, some 30, false⟩)],
    rooms := [(30, ⟨RoomState.Matchmaking, [1], 0⟩)],
    available_rooms := [30], rng := [] }

def c4JoinFinal : ServerActor :=
  { players := [(1, ⟨1, ⟨1, "a", 0, true⟩, some 10, false⟩),
                (2, ⟨2, ⟨2, "b", 0, false⟩, some 10, false⟩)],
    rooms := [(10, ⟨RoomState.Matchmaking, [1, 2], 0⟩)],
    available_rooms := [10], rng := [] }

/-- C4 (witness): the three parts of the amended theorem applied to concrete
states — a two-room pool, a pool miss that creates room 30, and a pool hit
that joins room 10. -/
theorem findRoom_scan_amended_witness :
    ((find_available_room_for c4State 3 (fun _ _ => true) (-1)).map Prod.fst =
      some ((c4State.available_rooms.filter
        (poolHit c4State.rooms (fun _ _ => true))).getLast?)) ∧
    (∃ rid host players,
      (FindRoomResult.Success 30 [(⟨1, "a", 0, true⟩ : PlayerObject)] true : FindRoomResult) =
        FindRoomResult.Success rid players true ∧
      alookup c4CreateState.players 1 = some host ∧
      alookup c4CreateFinal.rooms rid = some ⟨RoomState.Matchmaking, [1], 0⟩ ∧
      alookup c4CreateFinal.players 1 =
        some { host with obj := { host.obj with is_host := true }, room := some rid } ∧
      c4CreateFinal.available_rooms = insertSet rid c4CreateState.available_rooms) ∧
    (∃ players,
      (FindRoomResult.Success 10
        [(⟨1, "a", 0, true⟩ : PlayerObject), (⟨2, "b", 0, false⟩ : PlayerObject)] false :
          FindRoomResult) = FindRoomResult.Success 10 players false) :=
  ⟨findRoom_scan_amended.1 c4State 3 (fun _ _ => true) (by decide),
   findRoom_scan_amended.2.1 c4CreateState 1
     (FindRoomResult.Success 30 [⟨1, "a", 0, true⟩] true) c4CreateFinal []
     (by decide) (by decide),
   findRoom_scan_amended.2.2 c4JoinState 2 10 c4JoinMid
     (FindRoomResult.Success 10 [⟨1, "a", 0, true⟩, ⟨2, "b", 0, false⟩] false)
     c4JoinFinal
     [Delivery.event 1 (OutEvent.EventPlayerJoined ⟨2, "b", 0, false⟩),
      Delivery.event 2 (OutEvent.EventPlayerJoined ⟨2, "b", 0, false⟩)]
     (by decide) (by decide)⟩


theorem relay_filterMap_eq (ps : List (IdType × UserData)) (sid : IdType)
    (raw : String) (l : List IdType) :
    (l.filterMap (fun pid =>
      if pid = sid then none
      else
        match alookup ps pid with
        | none => none
        | some q => if q.in_game then some (Delivery.relayRaw pid raw) else none)) =
    (l.filter (fun p => decide (p ≠ sid) && inGameP ps p)).map
      (fun p => Delivery.relayRaw p raw) := by
  induction l with
  | nil => rfl
  | cons x xs ih =>
    rw [List.filterMap_cons, List.filter_cons]
    by_cases hx : x = sid
    · subst hx
      rw [if_pos rfl]
      rw [if_neg (by simp)]
      exact ih
    · rw [if_neg hx]
      cases halo : alookup ps x with
      | none =>
        have hg : inGameP ps x = false := by
          unfold inGameP
          rw [halo]
        rw [if_neg (by simp [hg])]
        exact ih
      | some q =>
        cases hq : q.in_game with
        | false =>
          have hg : inGameP ps x = false := by
            unfold inGameP
            rw [halo]
            exact hq
          simpa [hq, hg] using ih
        | true =>
          have hg : inGameP ps x = true := by
            unfold inGameP
            rw [halo]
            exact hq
          simpa [hq, hx, hg] using ih

theorem relayHandler_characterization (s : ServerActor) (sid rid : IdType)
    (u : UserData) (r : RoomData) (data : String)
    (hu : alookup s.players sid = some u) (hroom : u.room = some rid)
    (hr : alookup s.rooms rid = some r) (hne : data ≠ "")
    (hascii : data.front.utf8Size = 1) :
    relayHandler s sid data =
      some (s, (r.players.filter
          (fun p => decide (p ≠ sid) && inGameP s.players p)).map
        (fun p => Delivery.relayRaw p (relayPayload sid data))) := by
  unfold relayHandler
  rw [if_neg hne]
  simp only [hu, hroom, Option.some_bind, hr]
  rw [if_pos hascii]
  rw [relay_filterMap_eq]

/-- Modelled from the spec: stripping the leading sender-identity field of
the inbound structured payload means deleting everything up to and including
the first field separator (the first comma), the opening brace included. -/
def stripLeadingField (data : String) : String :=
  String.mk (((data.data.drop 1).dropWhile (fun c => c ≠ ',')).drop 1)

/-- Modelled from the spec: the relayed payload with the inbound leading
sender field stripped and replaced by the authoritative sender id. -/
def specRelayPayload (sender_id : IdType) (data : String) : String :=
  "\x7b\"sender\":\"" ++ toString sender_id ++ "\"," ++ stripLeadingField data

def s6 : ServerActor :=
  ⟨[(42, ⟨1, ⟨42, "s", 0, true⟩, some 77, true⟩),
    (7, ⟨2, ⟨7, "r", 0, false⟩, some 77, true⟩)],
   [(77, ⟨RoomState.Playing, [42, 7], 2⟩)], [], []⟩

def c6Data : String := "\x7b\"sender\":\"666\",\"x\":1\x7d"

def c6Out : String := "\x7b\"sender\":\"42\",\"sender\":\"666\",\"x\":1\x7d"

/-- C6 (counterexample): an in-game sender with a spoofed inbound sender
field.  The handler forwards the payload with the spoofed field still
present after the authoritative one: the inbound leading sender field is
NOT stripped, unlike the spec-modelled rewrite. -/
theorem relay_sender_not_stripped_counterexample :
    relayHandler s6 42 c6Data = some (s6, [Delivery.relayRaw 7 c6Out]) ∧
    c6Out ≠ specRelayPayload 42 c6Data ∧
    specRelayPayload 42 c6Data = "\x7b\"sender\":\"42\",\"x\":1\x7d" := by
  refine ⟨rfl, ?_, rfl⟩
  intro h
  exact absurd (congrArg String.data h) (by decide)


/-- C6 (amended): for every RelayMessage call with a non-empty payload whose
first character is a single byte, from a registered sender who is in an
existing room, the handler prepends an authoritative sender field to the
inbound payload minus its first byte — the inbound leading sender field is
NOT stripped — and the rewritten payload is delivered exactly to the room
members other than the sender whose in_game flag is true. -/
theorem relay_rewrite_delivery (s : ServerActor) (sid rid : IdType)
    (u : UserData) (r : RoomData) (data : String)
    (hu : alookup s.players sid = some u) (hroom : u.room = some rid)
    (hr : alookup s.rooms rid = some r) (hne : data ≠ "")
    (hascii : data.front.utf8Size = 1) :
    relayHandler s sid data =
      some (s, (r.players.filter
          (fun p => decide (p ≠ sid) && inGameP s.players p)).map
        (fun p => Delivery.relayRaw p
          ("\x7b\"sender\":\"" ++ toString sid ++ "\"," ++ data.drop 1))) :=
  relayHandler_characterization s sid rid u r data hu hroom hr hne hascii

/-- C6 witness: the amended delivery statement evaluated at the concrete
spoofed-sender state. -/
theorem relay_rewrite_delivery_witness :
    relayHandler s6 42 c6Data =
      some (s6, (([42, 7].filter
          (fun p => decide (p ≠ 42) && inGameP s6.players p)).map
        (fun p => Delivery.relayRaw p
          ("\x7b\"sender\":\"" ++ toString 42 ++ "\"," ++ c6Data.drop 1)))) :=
  relay_rewrite_delivery s6 42 77 ⟨1, ⟨42, "s", 0, true⟩, some 77, true⟩
    ⟨RoomState.Playing, [42, 7], 2⟩ c6Data rfl rfl rfl (by decide) (by decide)

def c10State : ServerActor :=
  ⟨[(5, ⟨1, ⟨5, "a", 0, true⟩, some 9, true⟩),
    (6, ⟨2, ⟨6, "b", 0, false⟩, some 9, true⟩)],
   [(9, ⟨RoomState.Playing, [5, 6], 2⟩)], [], []⟩

def c10Data : String := "\x7b\"t\":3\x7d"

/-- C10: for every RelayMessage call with a non-empty payload whose first
character is a single-byte character, from a registered sender who is in an
existing room, the handler completes and every forwarded payload equals the
string given by an opening brace, a sender field holding the authoritative
sender id, a comma, and the inbound payload minus exactly its first
character (one byte, by the single-byte hypothesis); nothing beyond that
byte is parsed or deleted. -/
theorem relay_payload_byte_rewrite (s : ServerActor) (sid rid : IdType)
    (u : UserData) (r : RoomData) (data : String)
    (hu : alookup s.players sid = some u) (hroom : u.room = some rid)
    (hr : alookup s.rooms rid = some r) (hne : data ≠ "")
    (hascii : data.front.utf8Size = 1) :
    ∃ outs, relayHandler s sid data = some (s, outs) ∧
      ∀ d ∈ outs, ∃ p, d = Delivery.relayRaw p
        ("\x7b\"sender\":\"" ++ toString sid ++ "\"," ++ data.drop 1) := by
  refine ⟨_, relayHandler_characterization s sid rid u r data hu hroom hr hne hascii, ?_⟩
  intro d hd
  rcases List.mem_map.mp hd with ⟨p, hp, rfl⟩
  exact ⟨p, rfl⟩

/-- C10 witness: the byte-rewrite statement evaluated at a concrete in-game
room. -/
theorem relay_payload_byte_rewrite_witness :
    ∃ outs, relayHandler c10State 5 c10Data = some (c10State, outs) ∧
      ∀ d ∈ outs, ∃ p, d = Delivery.relayRaw p
        ("\x7b\"sender\":\"" ++ toString 5 ++ "\"," ++ c10Data.drop 1) :=
  relay_payload_byte_rewrite c10State 5 9 ⟨1, ⟨5, "a", 0, true⟩, some 9, true⟩
    ⟨RoomState.Playing, [5, 6], 2⟩ c10Data rfl rfl rfl (by decide) (by decide)

theorem broadcast_event_room_none (ps : List (IdType × UserData)) (room : RoomData)
    (ev : OutEvent) :
    broadcast_event_room ps room ev none =
      (room.players.filter (fun p => regP ps p && !(inGameP ps p))).map
        (fun p => Delivery.event p ev) := by
  unfold broadcast_event_room
  generalize room.players = l
  induction l with
  | nil => rfl
  | cons x xs ih =>
    rw [List.filterMap_cons, List.filter_cons]
    cases halo : alookup ps x with
    | none =>
      have hreg : regP ps x = false := by
        unfold regP
        rw [halo]
        rfl
      rw [if_neg (fun hcon => Option.noConfusion hcon)]
      rw [if_neg (by simp [hreg])]
      exact ih
    | some q =>
      have hreg : regP ps x = true := by
        unfold regP
        rw [halo]
        rfl
      cases hq : q.in_game with
      | true =>
        have hg : inGameP ps x = true := by
          unfold inGameP
          rw [halo]
          exact hq
        rw [if_neg (fun hcon => Option.noConfusion hcon)]
        simpa [hq, hg, hreg] using ih
      | false =>
        have hg : inGameP ps x = false := by
          unfold inGameP
          rw [halo]
          exact hq
        rw [if_neg (fun hcon => Option.noConfusion hcon)]
        simpa [hq, hg, hreg] using ih

theorem join_room_success_eq (s : ServerActor) (pid rid : IdType)
    (u : UserData) (r : RoomData)
    (hu : alookup s.players pid = some u) (hroom : u.room = none)
    (hr : alookup s.rooms rid = some r) (hst : r.state = RoomState.Matchmaking) :
    join_room s pid rid =
      some (true, joinSetRoom (joinInsert s pid rid r) pid rid u,
        broadcast_event_room (joinSetRoom (joinInsert s pid rid r) pid rid u).players
          { r with players := insertSet pid r.players }
          (OutEvent.EventPlayerJoined u.obj) none) := by
  have hleave : leave_room_if_any s pid = some (s, []) :=
    leave_of_no_room (Or.inr ⟨u, hu, hroom⟩)
  have hins : alookup (joinInsert s pid rid r).rooms rid =
      some { r with players := insertSet pid r.players } := by
    simp [joinInsert, alookup_aset_self]
  have hup : alookup (joinInsert s pid rid r).players pid = some u := hu
  unfold join_room
  simp only [hleave]
  simp only [hr]
  simp only [hins]
  rw [if_neg (show ¬(({ r with players := insertSet pid r.players } :
      RoomData).state ≠ RoomState.Matchmaking) by simp [hst])]
  simp only [hup]
  rw [List.nil_append]

def c8Setup : List Op :=
  [Op.register none 1 ⟨"a", 0⟩, Op.register none 2 ⟨"b", 0⟩, Op.createRoom 1]

/-- C8 (counterexample): after a concrete trace (two registrations and a
room creation), player 2's join of room 10 succeeds and the delivery list
contains an `EventPlayerJoined` addressed to player 2 itself: the broadcast
passes no skip id, so the joining player receives its own announcement. -/
theorem join_broadcast_joiner_counterexample :
    (runOps c8Setup (initState [1, 2, 10])).map (fun s =>
      (joinRoomHandler s 2 10).map (fun tr =>
        ((match tr.1 with
          | JoinRoomResult.Success _ => true
          | _ => false),
         decide (Delivery.event 2 (OutEvent.EventPlayerJoined ⟨2, "b", 0, false⟩)
           ∈ tr.2.2)))) = some (some (true, true)) := by decide

/-- C8 (amended): when a registered, roomless, non-in-game player joins an
existing Matchmaking room with duplicate-free, registered members, the join
succeeds and the `EventPlayerJoined` announcement is delivered exactly once
to every member of the updated room whose `in_game` flag is false — the joining
player included, since the broadcast passes no skip id — and to nobody
else. -/
theorem join_broadcast_members (s : ServerActor) (pid rid : IdType)
    (u : UserData) (r : RoomData)
    (hu : alookup s.players pid = some u) (hroom : u.room = none)
    (hgame : u.in_game = false) (hr : alookup s.rooms rid = some r)
    (hst : r.state = RoomState.Matchmaking) (hnod : r.players.Nodup)
    (hreg : ∀ p ∈ r.players, (alookup s.players p).isSome = true) :
    ∃ users,
      joinRoomHandler s pid rid =
        some (JoinRoomResult.Success users,
          joinSetRoom (joinInsert s pid rid r) pid rid u,
          ((insertSet pid r.players).filter
              (fun p => regP s.players p && !(inGameP s.players p))).map
            (fun p => Delivery.event p (OutEvent.EventPlayerJoined u.obj))) ∧
      pid ∈ (insertSet pid r.players).filter
          (fun p => regP s.players p && !(inGameP s.players p)) ∧
      ((insertSet pid r.players).filter
          (fun p => regP s.players p && !(inGameP s.players p))).Nodup := by
  have hjoin := join_room_success_eq s pid rid u r hu hroom hr hst
  have hJp_pid : alookup (joinSetRoom (joinInsert s pid rid r) pid rid u).players pid =
      some { u with room := some rid } := by
    simp [joinSetRoom, joinInsert, alookup_aset_self]
  have hJp_ne : ∀ q, q ≠ pid →
      alookup (joinSetRoom (joinInsert s pid rid r) pid rid u).players q =
        alookup s.players q := by
    intro q hq
    simp [joinSetRoom, joinInsert, alookup_aset_ne _ _ hq]
  have hlook3 : alookup (joinSetRoom (joinInsert s pid rid r) pid rid u).rooms rid =
      some { r with players := insertSet pid r.players } := by
    simp [joinSetRoom, joinInsert, alookup_aset_self]
  have hreg3 : ∀ p ∈ insertSet pid r.players,
      (alookup (joinSetRoom (joinInsert s pid rid r) pid rid u).players p).isSome = true := by
    intro p hp
    by_cases hpp : p = pid
    · subst hpp
      rw [hJp_pid]
      rfl
    · rw [hJp_ne p hpp]
      rcases mem_insertSet.mp hp with h | h
      · exact hreg p h
      · exact absurd h hpp
  obtain ⟨users, husers⟩ := collectPlayers_isSome hreg3
  have hcongr : (insertSet pid r.players).filter
      (fun p => regP (joinSetRoom (joinInsert s pid rid r) pid rid u).players p &&
        !(inGameP (joinSetRoom (joinInsert s pid rid r) pid rid u).players p)) =
      (insertSet pid r.players).filter
        (fun p => regP s.players p && !(inGameP s.players p)) := by
    apply List.filter_congr
    intro p hp
    by_cases hpp : p = pid
    · subst hpp
      simp [regP, inGameP, hJp_pid, hu]
    · simp [regP, inGameP, hJp_ne p hpp]
  refine ⟨users, ?_, ?_, ?_⟩
  · unfold joinRoomHandler
    rw [if_neg (by simp [hr])]
    simp only [hjoin]
    rw [if_neg (fun hcon => Bool.noConfusion hcon)]
    simp only [hlook3]
    simp only [husers]
    rw [broadcast_event_room_none]
    rw [hcongr]
  · refine List.mem_filter.mpr ⟨mem_insertSet.mpr (Or.inr rfl), ?_⟩
    simp [regP, inGameP, hu, hgame]
  · exact (insertSet_nodup hnod).filter _

def c8WitState : ServerActor :=
  ⟨[(1, ⟨1, ⟨1, "a", 0, true⟩, some 10, false⟩),
    (2, ⟨2, ⟨2, "b", 0, false⟩, none, false⟩)],
   [(10, ⟨RoomState.Matchmaking, [1], 0⟩)], [], []⟩

/-- C8 witness: the amended broadcast statement evaluated at a concrete
two-player lobby. -/
theorem join_broadcast_members_witness :
    ∃ users,
      joinRoomHandler c8WitState 2 10 =
        some (JoinRoomResult.Success users,
          joinSetRoom (joinInsert c8WitState 2 10 ⟨RoomState.Matchmaking, [1], 0⟩) 2 10
            ⟨2, ⟨2, "b", 0, false⟩, none, false⟩,
          ((insertSet 2 [1]).filter
              (fun p => regP c8WitState.players p && !(inGameP c8WitState.players p))).map
            (fun p => Delivery.event p (OutEvent.EventPlayerJoined ⟨2, "b", 0, false⟩))) ∧
      2 ∈ (insertSet 2 [1]).filter
          (fun p => regP c8WitState.players p && !(inGameP c8WitState.players p)) ∧
      ((insertSet 2 [1]).filter
          (fun p => regP c8WitState.players p && !(inGameP c8WitState.players p))).Nodup :=
  join_broadcast_members c8WitState 2 10 ⟨2, ⟨2, "b", 0, false⟩, none, false⟩
    ⟨RoomState.Matchmaking, [1], 0⟩ rfl rfl rfl rfl rfl (by decide)
    (by decide)
